import Mathlib

/-!
# cacoon-cli: the request builder and the diagram commands of `main.go`

The development embeds `Cacoon.api` and the `list`, `get` and `remove`
actions of `main.go`.  The HTTP transport is an explicit function from the
request issued to the reply received; standard output is the sequence of
chunks written by `fmt.Printf`.

Bodies are Unicode text.  `encoding/json`, `strconv.Atoi` and
`github.com/jmoiron/jsonq` are libraries the program calls; they are embedded
here as far as the program uses them:

* a JSON number is kept as its literal, which stands for the `float64` that
  `encoding/json` stores in an `interface{}` and for what `json.Marshal`
  writes for that `float64`; of floating point only the range is embedded,
  by exact arithmetic (`floatOverflow`);
* a document produced by `json.Marshal` is kept as its tree, members in the
  order in which they are written;
* the scanner refuses nesting deeper than `maxNestingDepth`, and a slice that
  is decoded twice keeps its backing array, as in the `encoding/json` of
  current Go;
* `int` is 64 bits wide.

The subcommand `add` and the loading of the configuration are not embedded.
-/

namespace CacoonCli

/-! ## JSON documents -/

/-- A JSON document: members of an object are in document order. -/
inductive JValue where
  | null : JValue
  | bool (b : Bool) : JValue
  | num (lit : String) : JValue
  | str (s : String) : JValue
  | arr (xs : List JValue) : JValue
  | obj (ms : List (String × JValue)) : JValue

/-! ## The JSON reader of `encoding/json` -/

/-- The `isSpace` test of the scanner. -/
def isSpace (c : Char) : Bool :=
  c.toNat = 32 || c.toNat = 9 || c.toNat = 13 || c.toNat = 10

/-- Drops leading white space. -/
def skipSpace : List Char → List Char
  | [] => []
  | c :: cs => if isSpace c then skipSpace cs else c :: cs

/-- Tests for a decimal digit. -/
def isDigit (c : Char) : Bool := 48 ≤ c.toNat && c.toNat ≤ 57

/-- Value of a hexadecimal digit. -/
def hexDigit (c : Char) : Option Nat :=
  let n := c.toNat
  if 48 ≤ n && n ≤ 57 then some (n - 48)
  else if 97 ≤ n && n ≤ 102 then some (n - 87)
  else if 65 ≤ n && n ≤ 70 then some (n - 55)
  else none

/-- Reads the four hexadecimal digits of a `\u` escape (`getu4`, after the `\u`). -/
def getu4 : List Char → Option (Nat × List Char)
  | a :: b :: c :: d :: rest =>
    match hexDigit a, hexDigit b, hexDigit c, hexDigit d with
    | some x, some y, some z, some w => some (((x * 16 + y) * 16 + z) * 16 + w, rest)
    | _, _, _, _ => none
  | _ => none

/-- Decodes a `\u` escape after its `\u`, as `unquote` does: a surrogate
followed by its partner gives one character and takes both escapes, a
surrogate alone gives U+FFFD. -/
def readUnicodeEscape (cs : List Char) : Option (Char × List Char) :=
  match getu4 cs with
  | none => none
  | some (r, rest1) =>
    if 0xD800 ≤ r ∧ r < 0xE000 then
      match rest1 with
      | b :: u :: rest2 =>
        if b.toNat = 92 ∧ u.toNat = 117 then
          match getu4 rest2 with
          | some (r2, rest3) =>
            if r < 0xDC00 ∧ 0xDC00 ≤ r2 ∧ r2 < 0xE000 then
              some (Char.ofNat (0x10000 + (r - 0xD800) * 0x400 + (r2 - 0xDC00)), rest3)
            else some (Char.ofNat 0xFFFD, rest1)
          | none => some (Char.ofNat 0xFFFD, rest1)
        else some (Char.ofNat 0xFFFD, rest1)
      | _ => some (Char.ofNat 0xFFFD, rest1)
    else some (Char.ofNat r, rest1)

/-- Decodes an escape after its backslash. -/
def readEscape : List Char → Option (Char × List Char)
  | [] => none
  | e :: rest =>
    if e.toNat = 34 ∨ e.toNat = 92 ∨ e.toNat = 47 then some (e, rest)
    else if e.toNat = 98 then some (Char.ofNat 8, rest)
    else if e.toNat = 102 then some (Char.ofNat 12, rest)
    else if e.toNat = 110 then some (Char.ofNat 10, rest)
    else if e.toNat = 114 then some (Char.ofNat 13, rest)
    else if e.toNat = 116 then some (Char.ofNat 9, rest)
    else if e.toNat = 117 then readUnicodeEscape rest
    else none

/-- Reads a string after its opening quote; `acc` holds the characters read so
far, in reverse. -/
def readString : Nat → List Char → List Char → Option (String × List Char)
  | 0, _, _ => none
  | _ + 1, [], _ => none
  | fuel + 1, c :: cs, acc =>
    if c.toNat = 34 then some (String.mk acc.reverse, cs)
    else if c.toNat < 32 then none
    else if c.toNat = 92 then
      match readEscape cs with
      | some (ch, rest) => readString fuel rest (ch :: acc)
      | none => none
    else readString fuel cs (c :: acc)

/-- Takes the leading decimal digits. -/
def takeDigits : List Char → List Char × List Char
  | [] => ([], [])
  | c :: cs =>
    if isDigit c then ((takeDigits cs).1.cons c, (takeDigits cs).2) else ([], c :: cs)

/-- Reads the exponent part of a number, if there is one. -/
def readExponent (cs : List Char) : Option (List Char × List Char) :=
  match cs with
  | e :: rest =>
    if e.toNat = 101 ∨ e.toNat = 69 then
      match rest with
      | s :: rest1 =>
        if s.toNat = 43 ∨ s.toNat = 45 then
          match takeDigits rest1 with
          | ([], _) => none
          | (ds, rest2) => some (e :: s :: ds, rest2)
        else
          match takeDigits rest with
          | ([], _) => none
          | (ds, rest2) => some (e :: ds, rest2)
      | [] => none
    else some ([], cs)
  | [] => some ([], [])

/-- Reads the fraction part of a number, if there is one. -/
def readFraction (cs : List Char) : Option (List Char × List Char) :=
  match cs with
  | d :: rest =>
    if d.toNat = 46 then
      match takeDigits rest with
      | ([], _) => none
      | (ds, rest1) => some (d :: ds, rest1)
    else some ([], cs)
  | [] => some ([], [])

/-- Reads the integer part of a number: `0`, or a non-zero digit and digits. -/
def readIntPart (cs : List Char) : Option (List Char × List Char) :=
  match cs with
  | c :: rest =>
    if c.toNat = 48 then some ([c], rest)
    else if isDigit c then some (c :: (takeDigits rest).1, (takeDigits rest).2)
    else none
  | [] => none

/-- Reads a number literal, following the states of the scanner. -/
def readNumber (cs : List Char) : Option (String × List Char) :=
  let signed : List Char × List Char :=
    match cs with
    | c :: rest => if c.toNat = 45 then ([c], rest) else ([], cs)
    | [] => ([], [])
  match readIntPart signed.2 with
  | none => none
  | some (ip, r1) =>
    match readFraction r1 with
    | none => none
    | some (fp, r2) =>
      match readExponent r2 with
      | none => none
      | some (ep, r3) => some (String.mk (signed.1 ++ ip ++ fp ++ ep), r3)

/-- Strips a fixed word from the front of the input. -/
def stripWord : List Char → List Char → Option (List Char)
  | [], cs => some cs
  | _ :: _, [] => none
  | w :: ws, c :: cs => if w = c then stripWord ws cs else none

/-- Reads a value that is neither an array nor an object, from its first
character on: a string, `true`, `false`, `null` or a number. -/
def readScalar (c : Char) (rest : List Char) : Option (JValue × List Char) :=
  if c.toNat = 34 then
    match readString (rest.length + 1) rest [] with
    | some (s, rest1) => some (JValue.str s, rest1)
    | none => none
  else if c.toNat = 116 then
    match stripWord "rue".data rest with
    | some rest1 => some (JValue.bool true, rest1)
    | none => none
  else if c.toNat = 102 then
    match stripWord "alse".data rest with
    | some rest1 => some (JValue.bool false, rest1)
    | none => none
  else if c.toNat = 110 then
    match stripWord "ull".data rest with
    | some rest1 => some (JValue.null, rest1)
    | none => none
  else
    match readNumber (c :: rest) with
    | some (lit, rest1) => some (JValue.num lit, rest1)
    | none => none

/-- What follows an element of an array: `]` ends the array, `,` announces
another element. -/
inductive Next where
  | close (rest : List Char) : Next
  | more (rest : List Char) : Next
  | bad : Next

/-- Reads what follows an element of an array or, with `closer` the code of
`}`, a member of an object. -/
def readNext (closer : Nat) (cs : List Char) : Next :=
  match skipSpace cs with
  | d :: rest => if d.toNat = closer then Next.close rest
    else if d.toNat = 44 then Next.more rest else Next.bad
  | [] => Next.bad

/-- Reads the key of a member and the colon after it. -/
def readKey (cs : List Char) : Option (String × List Char) :=
  match skipSpace cs with
  | q :: rest =>
    if q.toNat = 34 then
      match readString (rest.length + 1) rest [] with
      | some (k, rest1) =>
        match skipSpace rest1 with
        | colon :: rest2 => if colon.toNat = 58 then some (k, rest2) else none
        | [] => none
      | none => none
    else none
  | [] => none

/-- The constant `maxNestingDepth` of the scanner: an array or object may be
opened while fewer than this many are open. -/
def maxNestingDepth : Nat := 10000

mutual
/-- Reads one JSON value from the front of the input; `depth` counts the
arrays and objects that are open around it.  Opening one more than
`maxNestingDepth` is the error `exceeded max depth`. -/
def readValue : Nat → Nat → List Char → Option (JValue × List Char)
  | 0, _, _ => none
  | fuel + 1, depth, cs =>
    match skipSpace cs with
    | [] => none
    | c :: rest =>
      if c.toNat = 123 then
        if maxNestingDepth ≤ depth then none
        else
          match skipSpace rest with
          | d :: rest1 =>
            if d.toNat = 125 then some (JValue.obj [], rest1)
            else
              match readMembers fuel (depth + 1) (d :: rest1) with
              | some (ms, rest2) => some (JValue.obj ms, rest2)
              | none => none
          | [] => none
      else if c.toNat = 91 then
        if maxNestingDepth ≤ depth then none
        else
          match skipSpace rest with
          | d :: rest1 =>
            if d.toNat = 93 then some (JValue.arr [], rest1)
            else
              match readElements fuel (depth + 1) (d :: rest1) with
              | some (xs, rest2) => some (JValue.arr xs, rest2)
              | none => none
          | [] => none
      else readScalar c rest
/-- Reads the elements of a non-empty array, up to and including `]`. -/
def readElements : Nat → Nat → List Char → Option (List JValue × List Char)
  | 0, _, _ => none
  | fuel + 1, depth, cs =>
    match readValue fuel depth cs with
    | none => none
    | some (v, rest) =>
      match readNext 93 rest with
      | Next.close rest1 => some ([v], rest1)
      | Next.more rest1 =>
        match readElements fuel depth rest1 with
        | some (vs, rest2) => some (v :: vs, rest2)
        | none => none
      | Next.bad => none
/-- Reads the members of a non-empty object, up to and including `}`. -/
def readMembers : Nat → Nat → List Char → Option (List (String × JValue) × List Char)
  | 0, _, _ => none
  | fuel + 1, depth, cs =>
    match readKey cs with
    | none => none
    | some (k, rest) =>
      match readValue fuel depth rest with
      | none => none
      | some (v, rest1) =>
        match readNext 125 rest1 with
        | Next.close rest2 => some ([(k, v)], rest2)
        | Next.more rest2 =>
          match readMembers fuel depth rest2 with
          | some (ms, rest3) => some ((k, v) :: ms, rest3)
          | none => none
        | Next.bad => none
end

/-- The first JSON value of a text and what follows it.  The fuel is enough:
more of it changes nothing (`readValue_fuel`). -/
def scanValue (text : String) : Option (JValue × List Char) :=
  readValue (2 * text.data.length + 2) 0 text.data

/-- What `json.Unmarshal` accepts (`checkValid`): the text is one value, with
white space around it at most. -/
def parseDocument (text : String) : Option JValue :=
  match scanValue text with
  | some (v, rest) => if skipSpace rest = [] then some v else none
  | none => none

/-- What `Decoder.Decode` reads from a stream: its first value; what follows
the value is left unread. -/
def parseFirst (text : String) : Option JValue :=
  match scanValue text with
  | some (v, _) => some v
  | none => none

/-! ## Values of type `interface{}` and `map[string]interface{}` -/

/-- Order of Go strings (bytes of UTF-8, which is the order of code points). -/
def keyLess : List Char → List Char → Bool
  | _, [] => false
  | [], _ :: _ => true
  | a :: as, b :: bs => a.toNat < b.toNat || (a.toNat = b.toNat && keyLess as bs)

/-- Stores a key in a Go map.  The map is kept as a list without repeated keys,
in the order in which `json.Marshal` writes it (keys sorted). -/
def mapInsert (k : String) (v : JValue) : List (String × JValue) → List (String × JValue)
  | [] => [(k, v)]
  | (k1, v1) :: m =>
    if k = k1 then (k, v) :: m
    else if keyLess k.data k1.data then (k, v) :: (k1, v1) :: m
    else (k1, v1) :: mapInsert k v m

/-- Go map lookup `m[k]`. -/
def mapLookup (k : String) : List (String × JValue) → Option JValue
  | [] => none
  | (k1, v1) :: m => if k = k1 then some v1 else mapLookup k m

/-! ### `strconv.ParseFloat`: the literals out of the range of `float64`

A number stored in an `interface{}` goes through `strconv.ParseFloat`, which
returns an error when the literal rounds to infinity.  The literal is held as
`decimal.set` holds it and compared exactly; no floating point is computed. -/

/-- A literal as `decimal.set` holds it: the value of the digits kept (at
most 800, leading zeros dropped), their number, the decimal point. -/
structure Decimal where
  mant : Nat := 0
  nd : Nat := 0
  dp : Int := 0
  sawdot : Bool := false

/-- One character of the mantissa in the loop of `decimal.set`. -/
def Decimal.step (d : Decimal) (c : Char) : Decimal :=
  if c.toNat = 46 then { d with sawdot := true, dp := (d.nd : Int) }
  else if c.toNat = 48 ∧ d.nd = 0 then { d with dp := d.dp - 1 }
  else if d.nd < 800 then { d with mant := d.mant * 10 + (c.toNat - 48), nd := d.nd + 1 }
  else d

/-- Splits a literal at its `e` or `E`. -/
def splitExponent : List Char → List Char × List Char
  | [] => ([], [])
  | c :: cs =>
    if c.toNat = 101 ∨ c.toNat = 69 then ([], cs)
    else ((splitExponent cs).1.cons c, (splitExponent cs).2)

/-- The exponent as `decimal.set` reads it: a digit is taken in only while the
value read so far is below 10000. -/
def readExponentValue (cs : List Char) : Int :=
  match cs with
  | [] => 0
  | c :: rest =>
    if c.toNat = 45 then
      -((rest.foldl (fun e x => if e < 10000 then e * 10 + (x.toNat - 48) else e) 0 : Nat) : Int)
    else
      (((if c.toNat = 43 then rest else c :: rest).foldl
        (fun e x => if e < 10000 then e * 10 + (x.toNat - 48) else e) 0 : Nat) : Int)

/-- The number `2^1024 - 2^970`, half a unit in the last place above the
largest `float64`: the least value that rounds to infinity. -/
def floatLimit : Nat :=
  179769313486231580793728971405303415079934132710037826936173778980444968292764750946649017977587207096330286416692887910946555547851940402630657488671505820681908902000708383676273854845817711531764475730270069855571366959622842914819860834936475292719074168444365510704342711559699508093042880177904174497792

/-- Powers of ten. -/
def pow10 : Nat → Nat
  | 0 => 1
  | n + 1 => 10 * pow10 n

/-- Tells whether `strconv.ParseFloat(lit, 64)` returns a range error for a
JSON number: the decimal held is at least `floatLimit`. -/
def floatOverflow (lit : String) : Bool :=
  let cs : List Char :=
    match lit.data with
    | [] => []
    | c :: rest => if c.toNat = 45 then rest else c :: rest
  let d : Decimal := (splitExponent cs).1.foldl Decimal.step {}
  let dp : Int := (if d.sawdot then d.dp else (d.nd : Int)) + readExponentValue (splitExponent cs).2
  let x : Int := dp - (d.nd : Int)
  d.nd ≠ 0 && (if 0 ≤ x then decide (floatLimit ≤ d.mant * pow10 x.toNat)
    else decide (floatLimit * pow10 (-x).toNat ≤ d.mant))

mutual
/-- Decodes a document into an `interface{}` (`valueInterface`): objects become
maps, in which the last of several members of one name stays; a number out of
range becomes nil. `JValue.null` is the nil interface. -/
def toIface : JValue → JValue
  | JValue.arr xs => JValue.arr (toIfaceList xs)
  | JValue.obj ms => JValue.obj (toIfaceMap [] ms)
  | JValue.num lit => if floatOverflow lit then JValue.null else JValue.num lit
  | v => v
/-- Decodes the elements of an array into a `[]interface{}`. -/
def toIfaceList : List JValue → List JValue
  | [] => []
  | x :: xs => toIface x :: toIfaceList xs
/-- Decodes the members of an object into the map `acc`. -/
def toIfaceMap : List (String × JValue) → List (String × JValue) → List (String × JValue)
  | acc, [] => acc
  | acc, (k, v) :: ms => toIfaceMap (mapInsert k (toIface v) acc) ms
end

mutual
/-- Tells whether a document holds a number out of range, for which decoding
it into an `interface{}` saves an `UnmarshalTypeError`. -/
def hasOverflow : JValue → Bool
  | JValue.arr xs => hasOverflowList xs
  | JValue.obj ms => hasOverflowMembers ms
  | JValue.num lit => floatOverflow lit
  | _ => false
/-- The same for the elements of an array. -/
def hasOverflowList : List JValue → Bool
  | [] => false
  | x :: xs => hasOverflow x || hasOverflowList xs
/-- The same for the members of an object. -/
def hasOverflowMembers : List (String × JValue) → Bool
  | [] => false
  | (_, v) :: ms => hasOverflow v || hasOverflowMembers ms
end

/-- The statement `json.Unmarshal([]byte(body), &raw)` for a nil
`raw map[string]interface{}`, its error dropped: `none` is the nil map, which
stays when the text is not valid, is `null`, or is no object. -/
def unmarshalMap (body : String) : Option (List (String × JValue)) :=
  match parseDocument body with
  | some (JValue.obj ms) => some (toIfaceMap [] ms)
  | _ => none

/-- `json.Marshal` of a `map[string]interface{}`: a nil map is written `null`. -/
def marshalMap : Option (List (String × JValue)) → JValue
  | none => JValue.null
  | some m => JValue.obj m

/-- The statements `data := map[string]interface{}{}` and `dec.Decode(&data)`,
the error dropped: an object fills the map, `null` makes it nil, anything else
leaves it empty.  A nil map and an empty one are looked up alike. -/
def decodeData (body : String) : List (String × JValue) :=
  match parseFirst body with
  | some (JValue.obj ms) => toIfaceMap [] ms
  | _ => []

/-! ## `strconv.Atoi` -/

/-- Value of a non-empty run of decimal digits. -/
def digitsValue : List Char → Option Nat
  | [] => none
  | cs => if cs.all isDigit then some (cs.foldl (fun n c => n * 10 + (c.toNat - 48)) 0) else none

/-- The integer `strconv.Atoi` returns, `none` when it returns an error
(syntax or range). -/
def atoi (s : String) : Option Int :=
  match s.data with
  | [] => none
  | c :: cs =>
    if c.toNat = 45 then
      match digitsValue cs with
      | some n => if n ≤ 2 ^ 63 then some (-(n : Int)) else none
      | none => none
    else
      match digitsValue (if c.toNat = 43 then cs else c :: cs) with
      | some n => if n < 2 ^ 63 then some (n : Int) else none
      | none => none

/-! ## `jsonq` -/

/-- Result of a `jsonq` call: a value, an error, or a run-time panic. -/
inductive QResult (α : Type) where
  | ok (v : α) : QResult α
  | error : QResult α
  | panic : QResult α

/-- The function `query` of `jsonq`: one step into a blob.  A segment that
`Atoi` accepts indexes an array, any other names a member of an object. -/
def query (blob : JValue) (q : String) : QResult JValue :=
  match atoi q with
  | some index =>
    match blob with
    | JValue.arr xs =>
      if index < xs.length then
        (if index < 0 then QResult.panic
         else match xs.get? index.toNat with
           | some v => QResult.ok v
           | none => QResult.panic)
      else QResult.error
    | _ => QResult.error
  | none =>
    match blob with
    | JValue.obj m =>
      match mapLookup q m with
      | some v => QResult.ok v
      | none => QResult.error
    | _ => QResult.error

/-- The loop of `rquery`: one `query` per segment, left to right. -/
def rqueryLoop : JValue → List String → QResult JValue
  | val, [] => QResult.ok val
  | val, q :: s =>
    match query val q with
    | QResult.ok v => rqueryLoop v s
    | QResult.error => QResult.error
    | QResult.panic => QResult.panic

/-- The function `rquery` of `jsonq`: a nil value at the end is an error. -/
def rquery (blob : JValue) (s : List String) : QResult JValue :=
  match rqueryLoop blob s with
  | QResult.ok JValue.null => QResult.error
  | r => r

/-- The method `JsonQuery.String`: the value found must be a string. -/
def JsonQuery.String (blob : List (String × JValue)) (s : List String) : QResult String :=
  match rquery (JValue.obj blob) s with
  | QResult.ok (JValue.str v) => QResult.ok v
  | QResult.ok _ => QResult.error
  | QResult.error => QResult.error
  | QResult.panic => QResult.panic

/-! ## Decoding into the records of `main.go` -/

/-- Folds one character of a key as `encoding/json` does when it matches keys
to field names without regard to case.  The names of this program are ASCII:
besides the two cases of a letter only U+017F folds to `S` and U+212A to `K`. -/
def foldChar (c : Char) : Char :=
  if 97 ≤ c.toNat ∧ c.toNat ≤ 122 then Char.ofNat (c.toNat - 32)
  else if c.toNat = 0x17F then Char.ofNat 83
  else if c.toNat = 0x212A then Char.ofNat 75
  else c

/-- A key with every character folded. -/
def foldName (k : String) : String := String.mk (k.data.map foldChar)

/-- The values of the members of an object whose key matches `name`, in
document order. -/
def membersNamed (name : String) (ms : List (String × JValue)) : List JValue :=
  (ms.filter (fun kv => foldName kv.1 = foldName name)).map Prod.snd

/-- Stores a value in a `string` field; `true` reports an `UnmarshalTypeError`. -/
def storeString (old : String) : JValue → String × Bool
  | JValue.str s => (s, false)
  | JValue.null => (old, false)
  | _ => (old, true)

/-- Stores a value in a `bool` field. -/
def storeBool (old : Bool) : JValue → Bool × Bool
  | JValue.bool b => (b, false)
  | JValue.null => (old, false)
  | _ => (old, true)

/-- Stores a value in an `int` field: the literal must pass `strconv.ParseInt`. -/
def storeInt (old : Int) : JValue → Int × Bool
  | JValue.num lit =>
    match atoi lit with
    | some n => (n, false)
    | none => (old, true)
  | JValue.null => (old, false)
  | _ => (old, true)

/-- Stores a value in an `interface{}` that holds `old`: every value fits but
a number out of range, which leaves `old` and is an `UnmarshalTypeError`; so
is a number out of range inside an array or object, which is stored as nil. -/
def storeIface (old : JValue) : JValue → JValue × Bool
  | JValue.num lit => if floatOverflow lit then (old, true) else (JValue.num lit, false)
  | v => (toIface v, hasOverflow v)

/-- A Go slice: its elements and, behind them, the elements its backing array
still holds from earlier, longer contents. -/
structure GoSlice (α : Type) where
  elems : List α
  stale : List α

/-- Decodes the elements of an array into a slice: element `i` is decoded
over what the backing array holds at `i`, over the zero value beyond it. -/
def decodeElems {α : Type} (store : α → JValue → α × Bool) (zero : α) :
    List α → List JValue → List α × Bool
  | _, [] => ([], false)
  | old, x :: xs =>
    ((store (old.headD zero) x).1 :: (decodeElems store zero old.tail xs).1,
      (store (old.headD zero) x).2 || (decodeElems store zero old.tail xs).2)

/-- What the backing array of a slice holds; `none` is the nil slice. -/
def backing {α : Type} : Option (GoSlice α) → List α
  | none => []
  | some sl => sl.elems ++ sl.stale

/-- Stores a value in a slice field (the method `array` of the decoder): an
empty array gives a new empty slice, another array is decoded over the
backing array and the slice cut to its length, `null` gives the nil slice. -/
def storeSlice {α : Type} (store : α → JValue → α × Bool) (zero : α)
    (old : Option (GoSlice α)) : JValue → Option (GoSlice α) × Bool
  | JValue.arr xs =>
    if xs.isEmpty then (some (GoSlice.mk [] []), false)
    else (some (GoSlice.mk (decodeElems store zero (backing old) xs).1
            ((backing old).drop xs.length)),
          (decodeElems store zero (backing old) xs).2)
  | JValue.null => (none, false)
  | _ => (old, true)

/-- The elements of a slice; none for the nil slice. -/
def sliceElems {α : Type} : Option (GoSlice α) → List α
  | none => []
  | some sl => sl.elems

/-- The anonymous struct of the field `Owner`. -/
structure Owner where
  Name : String := ""
  Nickname : String := ""
  Type_ : String := ""
  ImageURL : String := ""

/-- The struct `diagram`.  A field of type `interface{}` holds `JValue.null` when nil. -/
structure diagram where
  URL : String := ""
  ImageURL : String := ""
  ImageURLForAPI : String := ""
  DiagramID : String := ""
  Title : String := ""
  Description : String := ""
  Security : String := ""
  Type_ : String := ""
  Owner : Owner := {}
  OwnerName : String := ""
  OwnerNickname : String := ""
  Editing : JValue := JValue.null
  Own : Bool := false
  Shared : Bool := false
  FolderID : JValue := JValue.null
  FolderName : JValue := JValue.null
  ProjectID : JValue := JValue.null
  ProjectName : JValue := JValue.null
  OrganizationKey : JValue := JValue.null
  OrganizationName : JValue := JValue.null
  Created : String := ""
  Updated : String := ""
  Sheets : Option (GoSlice JValue) := none
  Comments : Option (GoSlice JValue) := none

/-- The struct `diagramResp`.  Its tags are spelt `josn`, so `encoding/json`
knows the fields by their Go names `Result` and `Count`. -/
structure diagramResp where
  Result : Option (GoSlice diagram) := none
  Count : Int := 0

/-- Stores the member `k : v` of an object in the owner struct. -/
def Owner.setField (o : Owner) (k : String) (v : JValue) : Owner × Bool :=
  if foldName k = "NAME" then ({ o with Name := (storeString o.Name v).1 }, (storeString o.Name v).2)
  else if foldName k = "NICKNAME" then
    ({ o with Nickname := (storeString o.Nickname v).1 }, (storeString o.Nickname v).2)
  else if foldName k = "TYPE" then
    ({ o with Type_ := (storeString o.Type_ v).1 }, (storeString o.Type_ v).2)
  else if foldName k = "IMAGEURL" then
    ({ o with ImageURL := (storeString o.ImageURL v).1 }, (storeString o.ImageURL v).2)
  else (o, false)

/-- Decodes the members of an object into a struct, one after the other; the
flag tells whether some member met an `UnmarshalTypeError`. -/
def decodeMembers {α : Type} (setField : α → String → JValue → α × Bool) :
    α × Bool → List (String × JValue) → α × Bool
  | acc, [] => acc
  | acc, (k, v) :: ms =>
    decodeMembers setField ((setField acc.1 k v).1, acc.2 || (setField acc.1 k v).2) ms

/-- Decodes a value into a struct: an object is decoded member by member,
`null` changes nothing, any other value is an `UnmarshalTypeError`. -/
def decodeStruct {α : Type} (setField : α → String → JValue → α × Bool) (old : α) :
    JValue → α × Bool
  | JValue.obj ms => decodeMembers setField (old, false) ms
  | JValue.null => (old, false)
  | _ => (old, true)

/-- The fields of `diagram`. -/
inductive DiagramField where
  | URL : DiagramField
  | ImageURL : DiagramField
  | ImageURLForAPI : DiagramField
  | DiagramID : DiagramField
  | Title : DiagramField
  | Description : DiagramField
  | Security : DiagramField
  | Type_ : DiagramField
  | Owner : DiagramField
  | OwnerName : DiagramField
  | OwnerNickname : DiagramField
  | Editing : DiagramField
  | Own : DiagramField
  | Shared : DiagramField
  | FolderID : DiagramField
  | FolderName : DiagramField
  | ProjectID : DiagramField
  | ProjectName : DiagramField
  | OrganizationKey : DiagramField
  | OrganizationName : DiagramField
  | Created : DiagramField
  | Updated : DiagramField
  | Sheets : DiagramField
  | Comments : DiagramField
deriving DecidableEq

/-- The tags of the fields of `diagram`, folded, in the order of the struct. -/
def diagramFields : List (String × DiagramField) :=
  [("URL", DiagramField.URL), ("IMAGEURL", DiagramField.ImageURL),
   ("IMAGEURLFORAPI", DiagramField.ImageURLForAPI), ("DIAGRAMID", DiagramField.DiagramID),
   ("TITLE", DiagramField.Title), ("DESCRIPTION", DiagramField.Description),
   ("SECURITY", DiagramField.Security), ("TYPE", DiagramField.Type_),
   ("OWNER", DiagramField.Owner), ("OWNERNAME", DiagramField.OwnerName),
   ("OWNERNICKNAME", DiagramField.OwnerNickname), ("EDITING", DiagramField.Editing),
   ("OWN", DiagramField.Own), ("SHARED", DiagramField.Shared),
   ("FOLDERID", DiagramField.FolderID), ("FOLDERNAME", DiagramField.FolderName),
   ("PROJECTID", DiagramField.ProjectID), ("PROJECTNAME", DiagramField.ProjectName),
   ("ORGANIZATIONKEY", DiagramField.OrganizationKey),
   ("ORGANIZATIONNAME", DiagramField.OrganizationName), ("CREATED", DiagramField.Created),
   ("UPDATED", DiagramField.Updated), ("SHEETS", DiagramField.Sheets),
   ("COMMENTS", DiagramField.Comments)]

/-- Finds the field a folded key stands for in a table of tags. -/
def lookupField (n : String) : List (String × DiagramField) → Option DiagramField
  | [] => none
  | (m, f) :: t => if n = m then some f else lookupField n t

/-- The field of `diagram` a folded key stands for: the field whose tag folds to it. -/
def diagramField (n : String) : Option DiagramField := lookupField n diagramFields

/-- Stores a value in a field of a `diagram`, each field by the rule of its type. -/
def diagram.store (d : diagram) (v : JValue) : DiagramField → diagram × Bool
  | DiagramField.URL => ({ d with URL := (storeString d.URL v).1 }, (storeString d.URL v).2)
  | DiagramField.ImageURL => ({ d with ImageURL := (storeString d.ImageURL v).1 }, (storeString d.ImageURL v).2)
  | DiagramField.ImageURLForAPI => ({ d with ImageURLForAPI := (storeString d.ImageURLForAPI v).1 }, (storeString d.ImageURLForAPI v).2)
  | DiagramField.DiagramID => ({ d with DiagramID := (storeString d.DiagramID v).1 }, (storeString d.DiagramID v).2)
  | DiagramField.Title => ({ d with Title := (storeString d.Title v).1 }, (storeString d.Title v).2)
  | DiagramField.Description => ({ d with Description := (storeString d.Description v).1 }, (storeString d.Description v).2)
  | DiagramField.Security => ({ d with Security := (storeString d.Security v).1 }, (storeString d.Security v).2)
  | DiagramField.Type_ => ({ d with Type_ := (storeString d.Type_ v).1 }, (storeString d.Type_ v).2)
  | DiagramField.Owner =>
    ({ d with Owner := (decodeStruct Owner.setField d.Owner v).1 },
      (decodeStruct Owner.setField d.Owner v).2)
  | DiagramField.OwnerName => ({ d with OwnerName := (storeString d.OwnerName v).1 }, (storeString d.OwnerName v).2)
  | DiagramField.OwnerNickname => ({ d with OwnerNickname := (storeString d.OwnerNickname v).1 }, (storeString d.OwnerNickname v).2)
  | DiagramField.Editing =>
    ({ d with Editing := (storeIface d.Editing v).1 }, (storeIface d.Editing v).2)
  | DiagramField.Own => ({ d with Own := (storeBool d.Own v).1 }, (storeBool d.Own v).2)
  | DiagramField.Shared => ({ d with Shared := (storeBool d.Shared v).1 }, (storeBool d.Shared v).2)
  | DiagramField.FolderID =>
    ({ d with FolderID := (storeIface d.FolderID v).1 }, (storeIface d.FolderID v).2)
  | DiagramField.FolderName =>
    ({ d with FolderName := (storeIface d.FolderName v).1 }, (storeIface d.FolderName v).2)
  | DiagramField.ProjectID =>
    ({ d with ProjectID := (storeIface d.ProjectID v).1 }, (storeIface d.ProjectID v).2)
  | DiagramField.ProjectName =>
    ({ d with ProjectName := (storeIface d.ProjectName v).1 }, (storeIface d.ProjectName v).2)
  | DiagramField.OrganizationKey =>
    ({ d with OrganizationKey := (storeIface d.OrganizationKey v).1 }, (storeIface d.OrganizationKey v).2)
  | DiagramField.OrganizationName =>
    ({ d with OrganizationName := (storeIface d.OrganizationName v).1 }, (storeIface d.OrganizationName v).2)
  | DiagramField.Created => ({ d with Created := (storeString d.Created v).1 }, (storeString d.Created v).2)
  | DiagramField.Updated => ({ d with Updated := (storeString d.Updated v).1 }, (storeString d.Updated v).2)
  | DiagramField.Sheets =>
    ({ d with Sheets := (storeSlice storeIface JValue.null d.Sheets v).1 },
      (storeSlice storeIface JValue.null d.Sheets v).2)
  | DiagramField.Comments =>
    ({ d with Comments := (storeSlice storeIface JValue.null d.Comments v).1 },
      (storeSlice storeIface JValue.null d.Comments v).2)

/-- Stores the member `k : v` of an object in a `diagram`; a key that names no
field is passed over. -/
def diagram.setField (d : diagram) (k : String) (v : JValue) : diagram × Bool :=
  match diagramField (foldName k) with
  | some f => d.store v f
  | none => (d, false)

/-- Stores a value in a `[]diagram` field. -/
def storeDiagrams (old : Option (GoSlice diagram)) (v : JValue) :
    Option (GoSlice diagram) × Bool :=
  storeSlice (decodeStruct diagram.setField) {} old v

/-- Stores the member `k : v` of an object in a `diagramResp`. -/
def diagramResp.setField (r : diagramResp) (k : String) (v : JValue) : diagramResp × Bool :=
  if foldName k = "RESULT" then
    ({ r with Result := (storeDiagrams r.Result v).1 }, (storeDiagrams r.Result v).2)
  else if foldName k = "COUNT" then
    ({ r with Count := (storeInt r.Count v).1 }, (storeInt r.Count v).2)
  else (r, false)

/-- The errors of `json.Unmarshal`. -/
inductive DecodeError where
  | syntaxError : DecodeError
  | unmarshalTypeError : DecodeError
deriving DecidableEq

/-- The call `json.Unmarshal(body, &d)` for a zero struct `d`: the struct after
the call and the error returned.  A text that is not valid leaves the struct
untouched; a value of the wrong type is skipped and reported at the end. -/
def unmarshal {α : Type} (setField : α → String → JValue → α × Bool) (zero : α)
    (body : String) : α × Option DecodeError :=
  match parseDocument body with
  | none => (zero, some DecodeError.syntaxError)
  | some v =>
    ((decodeStruct setField zero v).1,
      if (decodeStruct setField zero v).2 then some DecodeError.unmarshalTypeError else none)

/-! ## `json.Marshal` of the records -/

/-- The member of a field with `omitempty` and type `interface{}`. -/
def ifaceMember (name : String) : JValue → List (String × JValue)
  | JValue.null => []
  | v => [(name, v)]

/-- The member of a field with `omitempty` and type `[]interface{}`. -/
def sliceMember (name : String) (sl : Option (GoSlice JValue)) : List (String × JValue) :=
  if (sliceElems sl).isEmpty then [] else [(name, JValue.arr (sliceElems sl))]

/-- The document `json.Marshal` writes for the owner struct. -/
def Owner.marshal (o : Owner) : JValue :=
  JValue.obj [("name", JValue.str o.Name), ("nickname", JValue.str o.Nickname),
    ("type", JValue.str o.Type_), ("imageUrl", JValue.str o.ImageURL)]

/-- The document `json.Marshal` writes for a `diagram`. -/
def diagram.marshal (d : diagram) : JValue :=
  JValue.obj
    ([("url", JValue.str d.URL), ("imageUrl", JValue.str d.ImageURL),
      ("imageUrlForApi", JValue.str d.ImageURLForAPI), ("diagramId", JValue.str d.DiagramID),
      ("title", JValue.str d.Title)]
    ++ (if d.Description = "" then [] else [("description", JValue.str d.Description)])
    ++ [("security", JValue.str d.Security), ("type", JValue.str d.Type_),
      ("owner", d.Owner.marshal), ("ownerName", JValue.str d.OwnerName),
      ("ownerNickname", JValue.str d.OwnerNickname)]
    ++ ifaceMember "editing" d.Editing
    ++ [("own", JValue.bool d.Own), ("shared", JValue.bool d.Shared)]
    ++ ifaceMember "folderId" d.FolderID ++ ifaceMember "folderName" d.FolderName
    ++ ifaceMember "projectId" d.ProjectID ++ ifaceMember "projectName" d.ProjectName
    ++ ifaceMember "organizationKey" d.OrganizationKey
    ++ ifaceMember "organizationName" d.OrganizationName
    ++ [("created", JValue.str d.Created), ("updated", JValue.str d.Updated)]
    ++ sliceMember "sheets" d.Sheets ++ sliceMember "comments" d.Comments)

/-- The document `json.Marshal` writes for a `diagramResp`: a nil slice is `null`. -/
def diagramResp.marshal (r : diagramResp) : JValue :=
  JValue.obj
    [("Result", match r.Result with
        | none => JValue.null
        | some sl => JValue.arr (sl.elems.map diagram.marshal)),
     ("Count", JValue.num (toString r.Count))]

/-! ## Requests, replies and what a command leaves behind -/

/-- The struct `Cacoon`: the credentials read at start. -/
structure Cacoon where
  ApiKey : String
  ApiEP : String

/-- HTTP method of a request. -/
inductive Method where
  | GET : Method
  | POST : Method
deriving DecidableEq

/-- A request handed to `net/http`: `http.Get(url)` has neither content type
nor body, `http.Post(url, contentType, body)` has both. -/
structure Request where
  method : Method
  url : String
  contentType : Option String
  body : Option JValue

/-- What `net/http` gives back: an error with a nil response, or a response,
of which the program reads the status code and the body. -/
inductive Reply where
  | failure : Reply
  | response (StatusCode : Nat) (Body : String) : Reply

/-- The command line of a subcommand, as `cli.Context` shows it: the
positional arguments and the flags `ids` and `filter`. -/
structure Context where
  args : List String := []
  ids : Bool := false
  filter : String := ""

/-- The method `c.Args().First()`: the empty string when there is no argument. -/
def Context.First (c : Context) : String := c.args.headD ""

/-- One `fmt.Printf` of the program; each of them ends its output with a
newline.  A chunk is the line written, without that newline: a text, or the
JSON document that `json.Marshal` produced. -/
inductive Chunk where
  | line (s : String) : Chunk
  | json (doc : JValue) : Chunk

/-- How an action ends: it returns nil (exit status 0), it returns a
`cli.ExitError` with a code, or it panics. -/
inductive Exit where
  | success : Exit
  | exitError (code : Nat) : Exit
  | panic : Exit
deriving DecidableEq

/-- What running an action leaves: the requests sent, the output, the end. -/
structure Outcome where
  requests : List Request
  stdout : List Chunk
  exit : Exit

/-- What `%+v` prints for a `[]string`. -/
def formatStrings (lst : List String) : String := "[" ++ " ".intercalate lst ++ "]"

/-! ## The program -/

/-- The method `Cacoon.api`: the request it hands to `net/http` and the reply.
The last `return` of the source cannot be reached. -/
def Cacoon.api (cc : Cacoon) (http : Request → Reply) (target action body : String) :
    Request × Reply :=
  let url0 := cc.ApiEP ++ "/" ++ target ++ ".json?apiKey=" ++ cc.ApiKey
  let url :=
    if action ≠ "" then cc.ApiEP ++ "/" ++ target ++ "/" ++ action ++ ".json?apiKey=" ++ cc.ApiKey
    else url0
  if body = "" then
    (Request.mk Method.GET url none none, http (Request.mk Method.GET url none none))
  else
    let raw := unmarshalMap body
    let jsonBody := marshalMap raw
    (Request.mk Method.POST url (some "application/json") (some jsonBody),
      http (Request.mk Method.POST url (some "application/json") (some jsonBody)))

/-- The action of `diagram list`.  Each `cli.NewExitError(err, 86)` only builds
a value that is dropped, so an error changes nothing; a nil response makes
`resp.Body` panic. -/
def listAction (cc : Cacoon) (http : Request → Reply) (c : Context) : Outcome :=
  let call := cc.api http "diagrams" "" ""
  match call.2 with
  | Reply.failure => Outcome.mk [call.1] [] Exit.panic
  | Reply.response _ body =>
    let d := (unmarshal diagramResp.setField {} body).1
    if c.ids then
      let lst := (sliceElems d.Result).map (fun r => r.DiagramID)
      Outcome.mk [call.1] [Chunk.line (formatStrings lst)] Exit.success
    else
      Outcome.mk [call.1] [Chunk.json d.marshal] Exit.success

/-- The action of `diagram get`. -/
def getAction (cc : Cacoon) (http : Request → Reply) (c : Context) : Outcome :=
  let did := c.First
  let call := cc.api http "diagrams" (did ++ "/delete") ""
  match call.2 with
  | Reply.failure => Outcome.mk [call.1] [] Exit.panic
  | Reply.response status body =>
    if status ≠ 200 then
      if status = 404 then
        Outcome.mk [call.1] [Chunk.line "No such Diagram ID "] Exit.success
      else
        Outcome.mk [call.1]
          [Chunk.line ("Unexpected error code %!s(int=" ++ toString status ++ ")")] Exit.success
    else if c.filter ≠ "" then
      let data := decodeData body
      match JsonQuery.String data [c.filter] with
      | QResult.ok v => Outcome.mk [call.1] [Chunk.line v] Exit.success
      | QResult.error =>
        Outcome.mk [call.1] [Chunk.line ("No such name " ++ c.filter ++ " in root payload")]
          Exit.success
      | QResult.panic => Outcome.mk [call.1] [] Exit.panic
    else
      let d := (unmarshal diagram.setField {} body).1
      Outcome.mk [call.1] [Chunk.json d.marshal] Exit.success

/-- The action of `diagram remove`. -/
def removeAction (cc : Cacoon) (http : Request → Reply) (c : Context) : Outcome :=
  let did := c.First
  let call := cc.api http "diagrams" (did ++ "/delete") ""
  match call.2 with
  | Reply.failure => Outcome.mk [call.1] [] Exit.panic
  | Reply.response status _ =>
    if status ≠ 200 then
      if status = 404 then
        Outcome.mk [call.1] [Chunk.line "No such Diagram ID "] Exit.success
      else
        Outcome.mk [call.1]
          [Chunk.line ("Unexpected error code %!s(int=" ++ toString status ++ ")")] Exit.success
    else
      Outcome.mk [call.1] [Chunk.line (did ++ " has successfully deleted")] Exit.success

/-! ## The field-path filter as the specification words it -/

/-- Splits a path at its dots; `seg` holds the segment being read, reversed. -/
def splitDots : List Char → List Char → List String
  | seg, [] => [String.mk seg.reverse]
  | seg, c :: cs =>
    if c.toNat = 46 then String.mk seg.reverse :: splitDots [] cs else splitDots (c :: seg) cs

/-- Nested lookups, left to right, one per segment. -/
def specLookup : JValue → List String → Option JValue
  | v, [] => some v
  | JValue.obj m, seg :: segs =>
    match mapLookup seg m with
    | some v => specLookup v segs
    | none => none
  | _, _ :: _ => none

/-- A scalar of the generic field tree: a string, a number or a boolean. -/
def isScalar : JValue → Bool
  | JValue.str _ => true
  | JValue.num _ => true
  | JValue.bool _ => true
  | _ => false

/-- The field-path filter of the specification (section 4.4), written from
its words and not from the source: a dotted path is resolved by nested lookups
left to right and gives the scalar at that path, if there is one. -/
def specFieldPath (tree : JValue) (path : String) : Option JValue :=
  match specLookup tree (splitDots [] path.data) with
  | some v => if isScalar v then some v else none
  | none => none

/-- The string a top-level member of the decoded payload holds, if the payload
has a member of that name and its value is a string. -/
def stringMember (data : List (String × JValue)) (name : String) : Option String :=
  match mapLookup name data with
  | some (JValue.str s) => some s
  | _ => none

/-- The identifier of a diagram record of a payload: the record is an object
with one `diagramId` member, a string. -/
def recordId : JValue → Option String
  | JValue.obj fs =>
    match membersNamed "diagramId" fs with
    | [JValue.str id] => some id
    | _ => none
  | _ => none

/-- Tells whether a text decodes as a JSON object. -/
def decodesAsObject (body : String) : Bool :=
  match parseDocument body with
  | some (JValue.obj _) => true
  | _ => false

/-- Arrays inside one another: `nest k` is `k + 1` arrays deep. -/
def nest : Nat → JValue
  | 0 => JValue.arr []
  | k + 1 => JValue.arr [nest k]

/-! ## Inputs used in the examples -/

/-- Credentials with the default endpoint. -/
def demoCreds : Cacoon := ⟨"K", "https://cacoo.com/api/v1"⟩

/-- A server that answers every request with the same status and body. -/
def fixedServer (status : Nat) (body : String) : Request → Reply :=
  fun _ => Reply.response status body

/-- A list payload in the shape the specification gives: `items` and `count`. -/
def itemsPayload : String :=
  "\x7b\"items\":[\x7b\"diagramId\":\"a\"\x7d,\x7b\"diagramId\":\"b\"\x7d],\"count\":2\x7d"

/-- A list payload in the shape the program reads: `result` and `count`. -/
def resultPayload : String :=
  "\x7b\"result\":[\x7b\"diagramId\":\"a\"\x7d,\x7b\"diagramId\":\"b\"\x7d],\"count\":2\x7d"

/-- A payload with a top-level member whose name holds a dot. -/
def dottedKeyPayload : String := "\x7b\"owner.name\":\"Bob\"\x7d"

/-- A diagram whose owner is named Alice. -/
def alicePayload : String :=
  "\x7b\"diagramId\":\"d1\",\"ownerName\":\"Alice\",\"owner\":\x7b\"name\":\"Alice\"\x7d\x7d"

/-! ## Lemmas -/

/-- Dropping white space does not lengthen the input. -/
theorem skipSpace_length (cs : List Char) : (skipSpace cs).length ≤ cs.length := by
  induction cs with
  | nil => simp [skipSpace]
  | cons c cs ih =>
    simp only [skipSpace]
    split_ifs
    · simp only [List.length_cons]; omega
    · exact Nat.le_refl _

/-- What follows the first character after white space is shorter than the input. -/
theorem skipSpace_cons_length {cs rest : List Char} {c : Char} (h : skipSpace cs = c :: rest) :
    rest.length + 1 ≤ cs.length := by
  have := skipSpace_length cs
  rw [h] at this
  simpa using this

/-- The input left after four hexadecimal digits. -/
theorem getu4_length {cs rest : List Char} {n : Nat} (h : getu4 cs = some (n, rest)) :
    rest.length ≤ cs.length := by
  unfold getu4 at h
  split at h
  · split at h
    · simp only [Option.some.injEq, Prod.mk.injEq] at h
      rw [← h.2]
      simp only [List.length_cons]
      omega
    · cases h
  · cases h

/-- The input left after a `\u` escape. -/
theorem readUnicodeEscape_length {cs rest : List Char} {ch : Char}
    (h : readUnicodeEscape cs = some (ch, rest)) : rest.length ≤ cs.length := by
  unfold readUnicodeEscape at h
  split at h
  · cases h
  · rename_i r rest1 hg
    have l1 := getu4_length hg
    split_ifs at h
    · split at h
      · split_ifs at h
        · split at h
          · rename_i r2 rest3 hg2
            have l2 := getu4_length hg2
            split_ifs at h <;>
              (simp only [Option.some.injEq, Prod.mk.injEq] at h; rw [← h.2];
               simp only [List.length_cons] at l1 l2 ⊢; omega)
          · simp only [Option.some.injEq, Prod.mk.injEq] at h; rw [← h.2]; exact l1
        · simp only [Option.some.injEq, Prod.mk.injEq] at h; rw [← h.2]; exact l1
      · simp only [Option.some.injEq, Prod.mk.injEq] at h; rw [← h.2]; exact l1
    · simp only [Option.some.injEq, Prod.mk.injEq] at h; rw [← h.2]; exact l1

/-- An escape takes a character at least. -/
theorem readEscape_length {cs rest : List Char} {ch : Char}
    (h : readEscape cs = some (ch, rest)) : rest.length + 1 ≤ cs.length := by
  cases cs with
  | nil => cases h
  | cons e rest0 =>
    simp only [readEscape] at h
    split_ifs at h
    any_goals (simp only [Option.some.injEq, Prod.mk.injEq] at h; rw [← h.2]; simp)
    have := readUnicodeEscape_length h
    simp only [List.length_cons]
    omega

/-- A string takes its closing quote at least. -/
theorem readString_length : ∀ (f : Nat) (cs acc : List Char) (s : String) (rest : List Char),
    readString f cs acc = some (s, rest) → rest.length + 1 ≤ cs.length := by
  intro f
  induction f with
  | zero => intro cs acc s rest h; simp [readString] at h
  | succ f ih =>
    intro cs acc s rest h
    cases cs with
    | nil => simp [readString] at h
    | cons c cs =>
      simp only [readString] at h
      split_ifs at h
      · simp only [Option.some.injEq, Prod.mk.injEq] at h
        rw [← h.2]
        simp
      · split at h
        · rename_i ch rest1 he
          have l1 := readEscape_length he
          have h1 := ih _ _ _ _ h
          simp only [List.length_cons]
          omega
        · cases h
      · have h1 := ih _ _ _ _ h
        simp only [List.length_cons]
        omega

/-- The input left after the digits. -/
theorem takeDigits_length (cs : List Char) : (takeDigits cs).2.length ≤ cs.length := by
  induction cs with
  | nil => simp [takeDigits]
  | cons c cs ih =>
    simp only [takeDigits]
    split_ifs
    · simp only [List.length_cons]; omega
    · exact Nat.le_refl _

/-- The input left after the integer part of a number. -/
theorem readIntPart_length {cs ip rest : List Char} (h : readIntPart cs = some (ip, rest)) :
    rest.length ≤ cs.length := by
  unfold readIntPart at h
  split at h
  · rename_i c rest0
    split_ifs at h
    · simp only [Option.some.injEq, Prod.mk.injEq] at h; rw [← h.2]; simp
    · simp only [Option.some.injEq, Prod.mk.injEq] at h; rw [← h.2]
      have := takeDigits_length rest0
      simp only [List.length_cons]; omega
  · cases h

/-- The input left after the fraction of a number. -/
theorem readFraction_length {cs fp rest : List Char} (h : readFraction cs = some (fp, rest)) :
    rest.length ≤ cs.length := by
  unfold readFraction at h
  split at h
  · rename_i d rest0
    split_ifs at h
    · have := takeDigits_length rest0
      split at h
      · cases h
      · rename_i ds rest1 _ hd
        simp only [Option.some.injEq, Prod.mk.injEq] at h; rw [← h.2]
        rw [hd] at this
        simp only [List.length_cons]; simp only at this; omega
    · simp only [Option.some.injEq, Prod.mk.injEq] at h; rw [← h.2]
  · simp only [Option.some.injEq, Prod.mk.injEq] at h; rw [← h.2]

/-- The input left after the exponent of a number. -/
theorem readExponent_length {cs ep rest : List Char} (h : readExponent cs = some (ep, rest)) :
    rest.length ≤ cs.length := by
  unfold readExponent at h
  split at h
  · rename_i e rest0
    split_ifs at h
    · split at h
      · rename_i s rest1
        split_ifs at h
        · have := takeDigits_length rest1
          split at h
          · cases h
          · rename_i ds rest2 _ hd
            simp only [Option.some.injEq, Prod.mk.injEq] at h; rw [← h.2]
            rw [hd] at this
            simp only [List.length_cons]; simp only at this; omega
        · have := takeDigits_length (s :: rest1)
          split at h
          · cases h
          · rename_i ds rest2 _ hd
            simp only [Option.some.injEq, Prod.mk.injEq] at h; rw [← h.2]
            rw [hd] at this
            simp only [List.length_cons] at this ⊢; omega
      · cases h
    · simp only [Option.some.injEq, Prod.mk.injEq] at h; rw [← h.2]
  · simp only [Option.some.injEq, Prod.mk.injEq] at h; rw [← h.2]

/-- The input left after a number. -/
theorem readNumber_length {cs rest : List Char} {lit : String}
    (h : readNumber cs = some (lit, rest)) : rest.length ≤ cs.length := by
  unfold readNumber at h
  simp only at h
  split at h
  · cases h
  · rename_i ip r1 hi
    have l1 := readIntPart_length hi
    split at h
    · cases h
    · rename_i fp r2 hf
      have l2 := readFraction_length hf
      split at h
      · cases h
      · rename_i ep r3 he
        have l3 := readExponent_length he
        simp only [Option.some.injEq, Prod.mk.injEq] at h
        rw [← h.2]
        have l0 : (match cs with
            | c :: rest => if c.toNat = 45 then ([c], rest) else ([], cs)
            | [] => ([], [])).2.length ≤ cs.length := by
          split
          · split_ifs <;> simp
          · simp
        omega

/-- The input left after a fixed word. -/
theorem stripWord_length : ∀ (w cs rest : List Char), stripWord w cs = some rest →
    rest.length ≤ cs.length := by
  intro w
  induction w with
  | nil => intro cs rest h; simp only [stripWord, Option.some.injEq] at h; rw [h]
  | cons a w ih =>
    intro cs rest h
    cases cs with
    | nil => simp [stripWord] at h
    | cons c cs =>
      simp only [stripWord] at h
      split_ifs at h
      have := ih _ _ h
      simp only [List.length_cons]
      omega

/-- The input left after a scalar, whose first character was taken before. -/
theorem readScalar_length {c : Char} {rest rest1 : List Char} {v : JValue}
    (h : readScalar c rest = some (v, rest1)) : rest1.length ≤ rest.length + 1 := by
  unfold readScalar at h
  split_ifs at h
  · split at h
    · rename_i s r hs
      have := readString_length _ _ _ _ _ hs
      simp only [Option.some.injEq, Prod.mk.injEq] at h; rw [← h.2]; omega
    · cases h
  · split at h
    · rename_i r hs
      have := stripWord_length _ _ _ hs
      simp only [Option.some.injEq, Prod.mk.injEq] at h; rw [← h.2]; omega
    · cases h
  · split at h
    · rename_i r hs
      have := stripWord_length _ _ _ hs
      simp only [Option.some.injEq, Prod.mk.injEq] at h; rw [← h.2]; omega
    · cases h
  · split at h
    · rename_i r hs
      have := stripWord_length _ _ _ hs
      simp only [Option.some.injEq, Prod.mk.injEq] at h; rw [← h.2]; omega
    · cases h
  · split at h
    · rename_i lit r hs
      have := readNumber_length hs
      simp only [Option.some.injEq, Prod.mk.injEq] at h; rw [← h.2]
      simpa using this
    · cases h

/-- The closing bracket is a character of the input. -/
theorem readNext_close_length {k : Nat} {cs rest : List Char}
    (h : readNext k cs = Next.close rest) : rest.length + 1 ≤ cs.length := by
  unfold readNext at h
  split at h
  · rename_i d r hs
    have := skipSpace_cons_length hs
    split_ifs at h
    simp only [Next.close.injEq] at h
    rw [← h]; exact this
  · cases h

/-- The comma is a character of the input. -/
theorem readNext_more_length {k : Nat} {cs rest : List Char}
    (h : readNext k cs = Next.more rest) : rest.length + 1 ≤ cs.length := by
  unfold readNext at h
  split at h
  · rename_i d r hs
    have := skipSpace_cons_length hs
    split_ifs at h
    simp only [Next.more.injEq] at h
    rw [← h]; exact this
  · cases h

/-- A key takes a character at least. -/
theorem readKey_length {cs rest : List Char} {k : String}
    (h : readKey cs = some (k, rest)) : rest.length + 1 ≤ cs.length := by
  unfold readKey at h
  split at h
  · rename_i q r hs
    have l0 := skipSpace_cons_length hs
    split_ifs at h
    split at h
    · rename_i k1 r1 hk
      have l1 := readString_length _ _ _ _ _ hk
      split at h
      · rename_i colon r2 hc
        have l2 := skipSpace_cons_length hc
        split_ifs at h
        simp only [Option.some.injEq, Prod.mk.injEq] at h
        rw [← h.2]; omega
      · cases h
    · cases h
  · cases h

/-- What the reader leaves is not longer than what it was given. -/
theorem read_length : ∀ f : Nat,
    (∀ n cs v rest, readValue f n cs = some (v, rest) → rest.length ≤ cs.length)
    ∧ (∀ n cs vs rest, readElements f n cs = some (vs, rest) → rest.length ≤ cs.length)
    ∧ (∀ n cs ms rest, readMembers f n cs = some (ms, rest) → rest.length ≤ cs.length) := by
  intro f
  induction f with
  | zero =>
    refine ⟨?_, ?_, ?_⟩ <;> intro n cs v rest h
    · simp [readValue] at h
    · simp [readElements] at h
    · simp [readMembers] at h
  | succ f ih =>
    obtain ⟨ihV, ihE, ihM⟩ := ih
    refine ⟨?_, ?_, ?_⟩
    · intro n cs v rest h
      simp only [readValue] at h
      split at h
      · cases h
      · rename_i c r0 hs
        have l0 := skipSpace_cons_length hs
        split_ifs at h
        · split at h
          · rename_i d r1 hs1
            have l1 := skipSpace_cons_length hs1
            split_ifs at h
            · simp only [Option.some.injEq, Prod.mk.injEq] at h; rw [← h.2]; omega
            · split at h
              · rename_i ms r2 hm
                have l2 := ihM _ _ _ _ hm
                simp only [Option.some.injEq, Prod.mk.injEq] at h; rw [← h.2]
                simp only [List.length_cons] at l2; omega
              · cases h
          · cases h
        · split at h
          · rename_i d r1 hs1
            have l1 := skipSpace_cons_length hs1
            split_ifs at h
            · simp only [Option.some.injEq, Prod.mk.injEq] at h; rw [← h.2]; omega
            · split at h
              · rename_i xs r2 hm
                have l2 := ihE _ _ _ _ hm
                simp only [Option.some.injEq, Prod.mk.injEq] at h; rw [← h.2]
                simp only [List.length_cons] at l2; omega
              · cases h
          · cases h
        · have := readScalar_length h
          omega
    · intro n cs vs rest h
      simp only [readElements] at h
      split at h
      · cases h
      · rename_i v r0 hv
        have l0 := ihV _ _ _ _ hv
        split at h
        · rename_i r1 hn
          have l1 := readNext_close_length hn
          simp only [Option.some.injEq, Prod.mk.injEq] at h; rw [← h.2]; omega
        · rename_i r1 hn
          have l1 := readNext_more_length hn
          split at h
          · rename_i vs1 r2 he
            have l2 := ihE _ _ _ _ he
            simp only [Option.some.injEq, Prod.mk.injEq] at h; rw [← h.2]; omega
          · cases h
        · cases h
    · intro n cs ms rest h
      simp only [readMembers] at h
      split at h
      · cases h
      · rename_i k r0 hk
        have lk := readKey_length hk
        split at h
        · cases h
        · rename_i v r1 hv
          have l0 := ihV _ _ _ _ hv
          split at h
          · rename_i r2 hn
            have l1 := readNext_close_length hn
            simp only [Option.some.injEq, Prod.mk.injEq] at h; rw [← h.2]; omega
          · rename_i r2 hn
            have l1 := readNext_more_length hn
            split at h
            · rename_i ms1 r3 he
              have l2 := ihM _ _ _ _ he
              simp only [Option.some.injEq, Prod.mk.injEq] at h; rw [← h.2]; omega
            · cases h
          · cases h

/-- One more unit of fuel changes nothing once the fuel is twice the length
of the input and a little more. -/
theorem read_fuel_step : ∀ f : Nat,
    (∀ n cs, 2 * cs.length + 2 ≤ f → readValue (f + 1) n cs = readValue f n cs)
    ∧ (∀ n cs, 2 * cs.length + 3 ≤ f → readElements (f + 1) n cs = readElements f n cs)
    ∧ (∀ n cs, 2 * cs.length + 3 ≤ f → readMembers (f + 1) n cs = readMembers f n cs) := by
  intro f
  induction f with
  | zero =>
    refine ⟨?_, ?_, ?_⟩ <;> intro n cs h <;> omega
  | succ f ih =>
    obtain ⟨ihV, ihE, ihM⟩ := ih
    refine ⟨?_, ?_, ?_⟩
    · intro n cs hb
      conv_lhs => rw [readValue]
      conv_rhs => rw [readValue]
      cases hs : skipSpace cs with
      | nil => rfl
      | cons c r0 =>
        have l0 := skipSpace_cons_length hs
        simp only []
        split_ifs
        · rfl
        · cases hs1 : skipSpace r0 with
          | nil => rfl
          | cons d r1 =>
            have l1 := skipSpace_cons_length hs1
            simp only []
            split_ifs
            · rfl
            · rw [ihM (n + 1) (d :: r1) (by simp only [List.length_cons]; omega)]
        · rfl
        · cases hs1 : skipSpace r0 with
          | nil => rfl
          | cons d r1 =>
            have l1 := skipSpace_cons_length hs1
            simp only []
            split_ifs
            · rfl
            · rw [ihE (n + 1) (d :: r1) (by simp only [List.length_cons]; omega)]
        · rfl
    · intro n cs hb
      conv_lhs => rw [readElements]
      conv_rhs => rw [readElements]
      rw [ihV n cs (by omega)]
      cases hv : readValue f n cs with
      | none => rfl
      | some p =>
        obtain ⟨v, r0⟩ := p
        have l0 := (read_length f).1 _ _ _ _ hv
        simp only []
        cases hn : readNext 93 r0 with
        | close r1 => rfl
        | bad => rfl
        | more r1 =>
          have l1 := readNext_more_length hn
          simp only []
          rw [ihE n r1 (by omega)]
    · intro n cs hb
      conv_lhs => rw [readMembers]
      conv_rhs => rw [readMembers]
      cases hk : readKey cs with
      | none => rfl
      | some p =>
        obtain ⟨k, r0⟩ := p
        have lk := readKey_length hk
        simp only []
        rw [ihV n r0 (by omega)]
        cases hv : readValue f n r0 with
        | none => rfl
        | some q =>
          obtain ⟨v, r1⟩ := q
          have l0 := (read_length f).1 _ _ _ _ hv
          simp only []
          cases hn : readNext 125 r1 with
          | close r2 => rfl
          | bad => rfl
          | more r2 =>
            have l1 := readNext_more_length hn
            simp only []
            rw [ihM n r2 (by omega)]

/-- Enough fuel gives the result: with any fuel from twice the length of the
input plus two on, the reader returns what it returns with just that. -/
theorem readValue_fuel (n : Nat) (cs : List Char) (f : Nat) (h : 2 * cs.length + 2 ≤ f) :
    readValue f n cs = readValue (2 * cs.length + 2) n cs := by
  induction f with
  | zero => omega
  | succ f ih =>
    by_cases e : 2 * cs.length + 2 ≤ f
    · rw [(read_fuel_step f).1 n cs e, ih e]
    · have : f + 1 = 2 * cs.length + 2 := by omega
      rw [this]

/-- The limit on nesting: with `maxNestingDepth` arrays and objects open, no
further array or object is read, whatever it holds. -/
theorem readValue_at_max_depth (f : Nat) (cs : List Char) (c : Char) (rest : List Char)
    (hs : skipSpace cs = c :: rest) (hc : c.toNat = 91 ∨ c.toNat = 123) :
    readValue f maxNestingDepth cs = none := by
  cases f with
  | zero => rfl
  | succ f =>
    rw [readValue, hs]
    simp only []
    cases hc with
    | inl h => simp [h]
    | inr h => simp [h]

/-- An opening bracket is no white space. -/
theorem skipSpace_bracket (cs : List Char) :
    skipSpace (Char.ofNat 91 :: cs) = Char.ofNat 91 :: cs := by
  have h : isSpace (Char.ofNat 91) = false := by decide
  simp [skipSpace, h]

/-- A text that opens more than `maxNestingDepth` arrays is not read, whatever
follows and whatever the fuel. -/
theorem readValue_too_deep_aux : ∀ (k f depth : Nat) (cs : List Char),
    depth + k = maxNestingDepth →
      readValue f depth (List.replicate (k + 1) (Char.ofNat 91) ++ cs) = none := by
  intro k
  induction k with
  | zero =>
    intro f depth cs h
    have hd : depth = maxNestingDepth := by omega
    subst hd
    exact readValue_at_max_depth f _ (Char.ofNat 91) cs (skipSpace_bracket cs) (Or.inl (by decide))
  | succ k ih =>
    intro f depth cs h
    have hlt : ¬ maxNestingDepth ≤ depth := by omega
    cases f with
    | zero => rfl
    | succ f =>
      have e : List.replicate (k + 1 + 1) (Char.ofNat 91) ++ cs
          = Char.ofNat 91 :: (Char.ofNat 91 :: (List.replicate k (Char.ofNat 91) ++ cs)) := by
        simp [List.replicate_succ]
      rw [e, readValue, skipSpace_bracket, ]
      simp only []
      have h1 : ¬ (Char.ofNat 91).toNat = 123 := by decide
      have h2 : (Char.ofNat 91).toNat = 91 := by decide
      have h3 : ¬ (Char.ofNat 91).toNat = 93 := by decide
      rw [if_neg h1, if_pos h2, if_neg hlt, skipSpace_bracket]
      simp only []
      rw [if_neg h3]
      cases f with
      | zero => rfl
      | succ f =>
        rw [readElements]
        have e2 : Char.ofNat 91 :: (List.replicate k (Char.ofNat 91) ++ cs)
            = List.replicate (k + 1) (Char.ofNat 91) ++ cs := by
          simp [List.replicate_succ]
        rw [e2, ih f (depth + 1) cs (by omega)]

/-- A body that opens 10001 arrays does not decode. -/
theorem readValue_too_deep (f : Nat) (cs : List Char) :
    readValue f 0 (List.replicate 10001 (Char.ofNat 91) ++ cs) = none :=
  readValue_too_deep_aux 10000 f 0 cs (by simp [maxNestingDepth])


/-- A closing bracket is no white space. -/
theorem skipSpace_close (cs : List Char) :
    skipSpace (Char.ofNat 93 :: cs) = Char.ofNat 93 :: cs := by
  have h : isSpace (Char.ofNat 93) = false := by decide
  simp [skipSpace, h]

/-- A text that opens no more than `maxNestingDepth` arrays is read. -/
theorem readValue_nest : ∀ (k f depth : Nat) (cs : List Char),
    depth + k + 1 ≤ maxNestingDepth → 2 * k + 1 ≤ f →
      readValue f depth
          (List.replicate (k + 1) (Char.ofNat 91) ++ (List.replicate (k + 1) (Char.ofNat 93) ++ cs))
        = some (nest k, cs) := by
  intro k
  have h1 : ¬ (Char.ofNat 91).toNat = 123 := by decide
  have h2 : (Char.ofNat 91).toNat = 91 := by decide
  have h3 : ¬ (Char.ofNat 91).toNat = 93 := by decide
  have h4 : (Char.ofNat 93).toNat = 93 := by decide
  induction k with
  | zero =>
    intro f depth cs hd hf
    have hlt : ¬ maxNestingDepth ≤ depth := by omega
    obtain ⟨g, rfl⟩ : ∃ g, f = g + 1 := ⟨f - 1, by omega⟩
    have e : List.replicate (0 + 1) (Char.ofNat 91) ++ (List.replicate (0 + 1) (Char.ofNat 93) ++ cs)
        = Char.ofNat 91 :: (Char.ofNat 93 :: cs) := by
      simp [List.replicate_succ]
    rw [e, readValue, skipSpace_bracket]
    simp only []
    rw [if_neg h1, if_pos h2, if_neg hlt, skipSpace_close]
    simp only []
    rw [if_pos h4]
    rfl
  | succ k ih =>
    intro f depth cs hd hf
    have hlt : ¬ maxNestingDepth ≤ depth := by omega
    obtain ⟨g, rfl⟩ : ∃ g, f = g + 1 + 1 := ⟨f - 2, by omega⟩
    have e : List.replicate (k + 1 + 1) (Char.ofNat 91)
          ++ (List.replicate (k + 1 + 1) (Char.ofNat 93) ++ cs)
        = Char.ofNat 91 :: (Char.ofNat 91 :: (List.replicate k (Char.ofNat 91)
            ++ (List.replicate (k + 1) (Char.ofNat 93) ++ (Char.ofNat 93 :: cs)))) := by
      have e1 : List.replicate (k + 1 + 1) (Char.ofNat 93) ++ cs
          = List.replicate (k + 1) (Char.ofNat 93) ++ (Char.ofNat 93 :: cs) := by
        rw [List.replicate_succ' (k + 1), List.append_assoc]
        rfl
      rw [e1]
      simp [List.replicate_succ]
    have e2 : Char.ofNat 91 :: (List.replicate k (Char.ofNat 91)
          ++ (List.replicate (k + 1) (Char.ofNat 93) ++ (Char.ofNat 93 :: cs)))
        = List.replicate (k + 1) (Char.ofNat 91)
          ++ (List.replicate (k + 1) (Char.ofNat 93) ++ (Char.ofNat 93 :: cs)) := by
      simp [List.replicate_succ]
    rw [e, readValue, skipSpace_bracket]
    simp only []
    rw [if_neg h1, if_pos h2, if_neg hlt, skipSpace_bracket]
    simp only []
    rw [if_neg h3, readElements, e2, ih g (depth + 1) (Char.ofNat 93 :: cs) (by omega) (by omega)]
    simp only [readNext, skipSpace_close, if_pos h4]
    rfl

/-- The limit is exact: a body that opens 10000 arrays decodes. -/
theorem readValue_deepest (f : Nat) (cs : List Char) (hf : 20000 ≤ f) :
    readValue f 0
        (List.replicate 10000 (Char.ofNat 91) ++ (List.replicate 10000 (Char.ofNat 93) ++ cs))
      = some (nest 9999, cs) :=
  readValue_nest 9999 f 0 cs (by simp [maxNestingDepth]) (by omega)

set_option maxRecDepth 20000 in
/-- The range of `float64` on some literals: the largest `float64` is in
range, the next literal of seventeen digits and `1e400` are not, whatever the
sign; a literal that rounds to zero is in range. -/
theorem floatOverflow_samples :
    floatOverflow "1e400" = true ∧ floatOverflow "-1e400" = true
    ∧ floatOverflow "1.7976931348623157e308" = false
    ∧ floatOverflow "1.7976931348623159e308" = true
    ∧ floatOverflow "179769313486231570000e288" = false
    ∧ floatOverflow "1e-400" = false ∧ floatOverflow "0.0" = false
    ∧ floatOverflow "2" = false := by
  refine ⟨?_, ?_, ?_, ?_, ?_, ?_, ?_, ?_⟩ <;> rfl

set_option maxRecDepth 20000 in
/-- A number out of range in an `interface{}` field or in a map: the field
keeps what it held, the map holds nil under the key, and both report an error
or drop the number. -/
theorem overflow_samples :
    storeIface JValue.null (JValue.num "1e400") = (JValue.null, true)
    ∧ unmarshalMap "\x7b\"a\":1e400,\"b\":1\x7d"
      = some [("a", JValue.null), ("b", JValue.num "1")]
    ∧ (unmarshal diagram.setField {} "\x7b\"editing\":1e400,\"title\":\"t\"\x7d").2
      = some DecodeError.unmarshalTypeError
    ∧ (unmarshal diagram.setField {} "\x7b\"editing\":1e400,\"title\":\"t\"\x7d").1.Title
      = "t" := by
  refine ⟨rfl, rfl, rfl, rfl⟩

/-- One more unit of fuel changes nothing once the fuel exceeds the length of the input. -/
theorem readString_fuel_step : ∀ (f : Nat) (cs acc : List Char), cs.length + 1 ≤ f →
    readString (f + 1) cs acc = readString f cs acc := by
  intro f
  induction f with
  | zero => intro cs acc h; omega
  | succ f ih =>
    intro cs acc h
    cases cs with
    | nil => rfl
    | cons c cs =>
      simp only [List.length_cons] at h
      conv_lhs => rw [readString]
      conv_rhs => rw [readString]
      split_ifs
      · rfl
      · rfl
      · cases he : readEscape cs with
        | none => rfl
        | some p =>
          obtain ⟨ch, r⟩ := p
          have l := readEscape_length he
          simp only []
          rw [ih r _ (by omega)]
      · rw [ih cs _ (by omega)]

/-- The fuel given to the reader of strings is enough: more changes nothing. -/
theorem readString_fuel (cs acc : List Char) (f : Nat) (h : cs.length + 1 ≤ f) :
    readString f cs acc = readString (cs.length + 1) cs acc := by
  induction f with
  | zero => omega
  | succ f ih =>
    by_cases e : cs.length + 1 ≤ f
    · rw [readString_fuel_step f cs acc e, ih e]
    · have : f + 1 = cs.length + 1 := by omega
      rw [this]

theorem append_delete_ne_empty (did : String) : did ++ "/delete" ≠ "" := by
  intro h
  have hl := congrArg String.length h
  rw [String.length_append] at hl
  have h7 : "/delete".length = 7 := rfl
  have h0 : "".length = 0 := rfl
  omega

theorem delete_url (ep key did : String) :
    ep ++ "/" ++ "diagrams" ++ "/" ++ (did ++ "/delete") ++ ".json?apiKey=" ++ key
      = ep ++ "/diagrams/" ++ did ++ "/delete.json?apiKey=" ++ key := by
  apply String.ext
  simp only [String.data_append, List.append_assoc]
  rfl

/-- The request both `get` and `remove` send. -/
theorem api_delete (cc : Cacoon) (http : Request → Reply) (did : String) :
    cc.api http "diagrams" (did ++ "/delete") ""
      = (Request.mk Method.GET
          (cc.ApiEP ++ "/diagrams/" ++ did ++ "/delete.json?apiKey=" ++ cc.ApiKey) none none,
         http (Request.mk Method.GET
          (cc.ApiEP ++ "/diagrams/" ++ did ++ "/delete.json?apiKey=" ++ cc.ApiKey) none none)) := by
  simp [Cacoon.api, append_delete_ne_empty, delete_url]

/-- With one segment `JsonQuery.String` looks the segment up among the
top-level members, unless `Atoi` takes it for an index. -/
theorem jsonq_single (data : List (String × JValue)) (f : String) :
    JsonQuery.String data [f]
      = (match atoi f with
         | some _ => QResult.error
         | none =>
           match stringMember data f with
           | some s => QResult.ok s
           | none => QResult.error) := by
  cases ha : atoi f with
  | some n => simp [JsonQuery.String, rquery, rqueryLoop, query, ha]
  | none =>
    cases h : mapLookup f data with
    | none => simp [JsonQuery.String, rquery, rqueryLoop, query, stringMember, ha, h]
    | some v =>
      cases v <;> simp [JsonQuery.String, rquery, rqueryLoop, query, stringMember, ha, h]

/-- The request `list` sends. -/
theorem api_list (cc : Cacoon) (http : Request → Reply) :
    cc.api http "diagrams" "" ""
      = (Request.mk Method.GET (cc.ApiEP ++ "/diagrams.json?apiKey=" ++ cc.ApiKey) none none,
         http (Request.mk Method.GET (cc.ApiEP ++ "/diagrams.json?apiKey=" ++ cc.ApiKey)
          none none)) := by
  have hu : cc.ApiEP ++ "/" ++ "diagrams" ++ ".json?apiKey=" ++ cc.ApiKey
      = cc.ApiEP ++ "/diagrams.json?apiKey=" ++ cc.ApiKey := by
    apply String.ext
    simp only [String.data_append, List.append_assoc]
    rfl
  simp [Cacoon.api, hu]

/-- A member that is not named `result` leaves the field `Result` as it is. -/
theorem resp_setField_other (r : diagramResp) (k : String) (v : JValue)
    (h : foldName k ≠ "RESULT") : (diagramResp.setField r k v).1.Result = r.Result := by
  unfold diagramResp.setField
  rw [if_neg h]
  split_ifs <;> rfl

/-- The field `Result` after decoding depends on the `result` members only. -/
theorem decodeMembers_Result (ms : List (String × JValue)) :
    ∀ acc : diagramResp × Bool,
      (decodeMembers diagramResp.setField acc ms).1.Result
        = (membersNamed "result" ms).foldl (fun r v => (storeDiagrams r v).1) acc.1.Result := by
  induction ms with
  | nil => intro acc; rfl
  | cons kv ms ih =>
    intro acc
    obtain ⟨k, v⟩ := kv
    have hn : foldName "result" = "RESULT" := rfl
    simp only [decodeMembers]
    rw [ih]
    by_cases h : foldName k = "RESULT"
    · simp [membersNamed, hn, h, diagramResp.setField] at *
    · rw [resp_setField_other _ _ _ h]
      simp [membersNamed, hn, h] at *

/-- A field found in a table stands in the table under the key. -/
theorem lookupField_mem (n : String) (f : DiagramField) :
    ∀ t : List (String × DiagramField), lookupField n t = some f → (n, f) ∈ t := by
  intro t
  induction t with
  | nil => intro h; cases h
  | cons p t ih =>
    obtain ⟨m, g⟩ := p
    intro h
    unfold lookupField at h
    by_cases e : n = m
    · rw [if_pos e] at h
      cases h
      subst e
      exact List.mem_cons_self _ _
    · rw [if_neg e] at h
      exact List.mem_cons_of_mem _ (ih h)

/-- Only the key `diagramId` stands for the field `DiagramID`. -/
theorem diagramField_DiagramID (n : String) :
    diagramField n = some DiagramField.DiagramID ↔ n = "DIAGRAMID" := by
  constructor
  · intro h
    have hm := lookupField_mem n _ _ h
    simpa [diagramFields] using hm
  · intro h
    subst h
    rfl

/-- A member that is not named `diagramId` leaves the field `DiagramID` as it is. -/
theorem diagram_setField_other (d : diagram) (k : String) (v : JValue)
    (h : foldName k ≠ "DIAGRAMID") : (diagram.setField d k v).1.DiagramID = d.DiagramID := by
  unfold diagram.setField
  cases hf : diagramField (foldName k) with
  | none => rfl
  | some f =>
    cases f <;> first | rfl | exact absurd ((diagramField_DiagramID _).1 hf) h

/-- A member named `diagramId` is stored in the field `DiagramID`. -/
theorem diagram_setField_id (d : diagram) (k : String) (v : JValue)
    (h : foldName k = "DIAGRAMID") :
    (diagram.setField d k v).1.DiagramID = (storeString d.DiagramID v).1 := by
  unfold diagram.setField
  rw [(diagramField_DiagramID _).2 h]
  rfl

/-- The field `DiagramID` after decoding depends on the `diagramId` members only. -/
theorem decodeMembers_DiagramID (fs : List (String × JValue)) :
    ∀ acc : diagram × Bool,
      (decodeMembers diagram.setField acc fs).1.DiagramID
        = (membersNamed "diagramId" fs).foldl (fun s v => (storeString s v).1)
            acc.1.DiagramID := by
  induction fs with
  | nil => intro acc; rfl
  | cons kv fs ih =>
    intro acc
    obtain ⟨k, v⟩ := kv
    have hn : foldName "diagramId" = "DIAGRAMID" := rfl
    simp only [decodeMembers]
    rw [ih]
    by_cases h : foldName k = "DIAGRAMID"
    · rw [diagram_setField_id _ _ _ h]
      simp [membersNamed, hn, h]
    · rw [diagram_setField_other _ _ _ h]
      simp [membersNamed, hn, h]

/-- A record with identifier `id` decodes to a diagram with that `DiagramID`. -/
theorem decodeStruct_recordId (x : JValue) (id : String) (h : recordId x = some id)
    (base : diagram) : (decodeStruct diagram.setField base x).1.DiagramID = id := by
  cases x with
  | obj fs =>
    simp only [decodeStruct]
    rw [decodeMembers_DiagramID]
    simp only [recordId] at h
    generalize membersNamed "diagramId" fs = l at h
    split at h
    · simp only [Option.some.injEq] at h
      simp [storeString, h]
    · cases h
  | null => cases h
  | bool b => cases h
  | num lit => cases h
  | str s => cases h
  | arr xs => cases h

/-- The identifiers of the decoded diagrams are those of the records, in order. -/
theorem decodeElems_ids (items : List JValue) :
    ∀ (ids : List String) (old : List diagram), items.map recordId = ids.map some →
      (decodeElems (decodeStruct diagram.setField) {} old items).1.map (fun r => r.DiagramID)
        = ids := by
  induction items with
  | nil =>
    intro ids old h
    cases ids with
    | nil => rfl
    | cons i is => simp at h
  | cons x xs ih =>
    intro ids old h
    cases ids with
    | nil => simp at h
    | cons i is =>
      simp only [List.map_cons, List.cons.injEq] at h
      simp only [decodeElems, List.map_cons]
      rw [decodeStruct_recordId x i h.1, ih is old.tail h.2]

/-- An array stored in a nil slice: the elements are decoded over zero values. -/
theorem storeDiagrams_nil (items : List JValue) :
    ∃ sl : GoSlice diagram, (storeDiagrams none (JValue.arr items)).1 = some sl
      ∧ sl.elems = (decodeElems (decodeStruct diagram.setField) {} [] items).1 := by
  cases items with
  | nil => exact ⟨GoSlice.mk [] [], rfl, rfl⟩
  | cons x xs => exact ⟨_, rfl, rfl⟩

/-! ## Theorems -/

/-- C1: the URL built by `Cacoon.api` is `<endpoint>/<resource>.json?apiKey=<key>`
when the sub-action is empty and `<endpoint>/<resource>/<subaction>.json?apiKey=<key>`
otherwise, whatever the body argument is. -/
theorem api_url_shape (cc : Cacoon) (http : Request → Reply) (target action body : String) :
    (cc.api http target action body).1.url
      = (if action = "" then cc.ApiEP ++ "/" ++ target ++ ".json?apiKey=" ++ cc.ApiKey
         else cc.ApiEP ++ "/" ++ target ++ "/" ++ action ++ ".json?apiKey=" ++ cc.ApiKey)
    ∧ ∀ other : String,
        (cc.api http target action other).1.url = (cc.api http target action body).1.url := by
  have key : ∀ b : String, (cc.api http target action b).1.url
      = (if action = "" then cc.ApiEP ++ "/" ++ target ++ ".json?apiKey=" ++ cc.ApiKey
         else cc.ApiEP ++ "/" ++ target ++ "/" ++ action ++ ".json?apiKey=" ++ cc.ApiKey) := by
    intro b
    unfold Cacoon.api
    by_cases hb : b = "" <;> by_cases ha : action = "" <;> simp [hb, ha]
  exact ⟨key body, fun other => (key other).trans (key body).symm⟩

/-- C10: `get <id>` and `remove <id>` send one and the same request, an HTTP GET
without body to `<endpoint>/diagrams/<id>/delete.json?apiKey=<key>`, whatever the
other arguments, the flags and the server are. -/
theorem get_remove_same_request (cc : Cacoon) (http : Request → Reply) (did : String)
    (rest : List String) (ids : Bool) (filter : String) :
    (getAction cc http (Context.mk (did :: rest) ids filter)).requests
      = [Request.mk Method.GET
          (cc.ApiEP ++ "/diagrams/" ++ did ++ "/delete.json?apiKey=" ++ cc.ApiKey) none none]
    ∧ (removeAction cc http (Context.mk (did :: rest) ids filter)).requests
      = (getAction cc http (Context.mk (did :: rest) ids filter)).requests := by
  have hg : (getAction cc http (Context.mk (did :: rest) ids filter)).requests
      = [Request.mk Method.GET
          (cc.ApiEP ++ "/diagrams/" ++ did ++ "/delete.json?apiKey=" ++ cc.ApiKey) none none] := by
    simp only [getAction, Context.First, List.headD_cons, api_delete]
    cases http (Request.mk Method.GET
      (cc.ApiEP ++ "/diagrams/" ++ did ++ "/delete.json?apiKey=" ++ cc.ApiKey) none none) with
    | failure => rfl
    | response status body =>
      simp only []
      split_ifs <;> first | rfl | (split <;> rfl)
  have hr : (removeAction cc http (Context.mk (did :: rest) ids filter)).requests
      = [Request.mk Method.GET
          (cc.ApiEP ++ "/diagrams/" ++ did ++ "/delete.json?apiKey=" ++ cc.ApiKey) none none] := by
    simp only [removeAction, Context.First, List.headD_cons, api_delete]
    cases http (Request.mk Method.GET
      (cc.ApiEP ++ "/diagrams/" ++ did ++ "/delete.json?apiKey=" ++ cc.ApiKey) none none) with
    | failure => rfl
    | response status body =>
      simp only []
      split_ifs <;> rfl
  exact ⟨hg, hr.trans hg.symm⟩

/-- C5, as stated, fails: on a 404 the line printed is the message followed by
a space, not the literal message. -/
theorem get_not_found_counterexample :
    (getAction demoCreds (fixedServer 404 "") (Context.mk ["d1"] false "")).stdout
      = [Chunk.line "No such Diagram ID "]
    ∧ (getAction demoCreds (fixedServer 404 "") (Context.mk ["d1"] false "")).stdout
      ≠ [Chunk.line "No such Diagram ID"] := by
  have h : (getAction demoCreds (fixedServer 404 "") (Context.mk ["d1"] false "")).stdout
      = [Chunk.line "No such Diagram ID "] := rfl
  refine ⟨h, ?_⟩
  rw [h]
  intro e
  simp at e

/-- C5, amended: when the response to `get <id>` has status 404, whatever the id,
the flags and the body are, the whole output is the one line
`No such Diagram ID ` (the message and a space after it), the body is
neither decoded nor printed, and the action returns nil. -/
theorem get_not_found (cc : Cacoon) (http : Request → Reply) (did : String)
    (rest : List String) (ids : Bool) (filter body : String)
    (hreply : http (Request.mk Method.GET
        (cc.ApiEP ++ "/diagrams/" ++ did ++ "/delete.json?apiKey=" ++ cc.ApiKey) none none)
      = Reply.response 404 body) :
    getAction cc http (Context.mk (did :: rest) ids filter)
      = Outcome.mk
          [Request.mk Method.GET
            (cc.ApiEP ++ "/diagrams/" ++ did ++ "/delete.json?apiKey=" ++ cc.ApiKey) none none]
          [Chunk.line "No such Diagram ID "] Exit.success := by
  simp [getAction, Context.First, api_delete, hreply]

/-- C5, amended, on the id `d1` with a server that answers 404 and a body. -/
theorem get_not_found_witness :
    fixedServer 404 "\x7b\"diagramId\":\"d1\"\x7d" (Request.mk Method.GET
        (demoCreds.ApiEP ++ "/diagrams/" ++ "d1" ++ "/delete.json?apiKey=" ++ demoCreds.ApiKey)
        none none)
      = Reply.response 404 "\x7b\"diagramId\":\"d1\"\x7d"
    ∧ getAction demoCreds (fixedServer 404 "\x7b\"diagramId\":\"d1\"\x7d")
        (Context.mk ("d1" :: []) false "owner.name")
      = Outcome.mk
          [Request.mk Method.GET
            (demoCreds.ApiEP ++ "/diagrams/" ++ "d1" ++ "/delete.json?apiKey=" ++ demoCreds.ApiKey)
            none none]
          [Chunk.line "No such Diagram ID "] Exit.success :=
  ⟨rfl, get_not_found demoCreds (fixedServer 404 "\x7b\"diagramId\":\"d1\"\x7d") "d1" [] false
    "owner.name" "\x7b\"diagramId\":\"d1\"\x7d" rfl⟩

/-- C6: when the response to `remove <id>` has status 200 the output is the one
line `<id> has successfully deleted`, with the id as given on the command line,
and the action returns nil. -/
theorem remove_ok (cc : Cacoon) (http : Request → Reply) (did : String)
    (rest : List String) (ids : Bool) (filter body : String)
    (hreply : http (Request.mk Method.GET
        (cc.ApiEP ++ "/diagrams/" ++ did ++ "/delete.json?apiKey=" ++ cc.ApiKey) none none)
      = Reply.response 200 body) :
    (removeAction cc http (Context.mk (did :: rest) ids filter)).stdout
      = [Chunk.line (did ++ " has successfully deleted")]
    ∧ (removeAction cc http (Context.mk (did :: rest) ids filter)).exit = Exit.success := by
  simp only [removeAction, Context.First, List.headD_cons, api_delete, hreply]
  simp

/-- C6 on the id `d1` with a server that answers 200. -/
theorem remove_ok_witness :
    fixedServer 200 "" (Request.mk Method.GET
        (demoCreds.ApiEP ++ "/diagrams/" ++ "d1" ++ "/delete.json?apiKey=" ++ demoCreds.ApiKey)
        none none)
      = Reply.response 200 ""
    ∧ (removeAction demoCreds (fixedServer 200 "") (Context.mk ("d1" :: []) false "")).stdout
      = [Chunk.line ("d1" ++ " has successfully deleted")]
    ∧ (removeAction demoCreds (fixedServer 200 "") (Context.mk ("d1" :: []) false "")).exit
      = Exit.success :=
  ⟨rfl, remove_ok demoCreds (fixedServer 200 "") "d1" [] false "" "" rfl⟩

/-- C2, as stated, fails: the payload has `owner.name` = "Alice" in the sense of
the specification, yet `get d1 --filter owner.name` prints that there is no such
name, not `Alice`. -/
theorem get_filter_dotted_counterexample :
    specFieldPath (JValue.obj (decodeData alicePayload)) "owner.name" = some (JValue.str "Alice")
    ∧ (getAction demoCreds (fixedServer 200 alicePayload)
        (Context.mk ["d1"] false "owner.name")).stdout
      = [Chunk.line "No such name owner.name in root payload"]
    ∧ (getAction demoCreds (fixedServer 200 alicePayload)
        (Context.mk ["d1"] false "owner.name")).stdout ≠ [Chunk.line "Alice"] := by
  have h : (getAction demoCreds (fixedServer 200 alicePayload)
        (Context.mk ["d1"] false "owner.name")).stdout
      = [Chunk.line "No such name owner.name in root payload"] := rfl
  refine ⟨rfl, h, ?_⟩
  rw [h]
  intro e
  simp at e

/-- C2, amended: for a response of status 200 and a non-empty filter that
`Atoi` does not read as an integer and that is, taken whole, the name of a
top-level member of the decoded payload holding a string, `get <id> --filter`
prints that string on one line and returns nil. -/
theorem get_filter_top_level (cc : Cacoon) (http : Request → Reply) (did : String)
    (rest : List String) (ids : Bool) (filter body s : String)
    (hreply : http (Request.mk Method.GET
        (cc.ApiEP ++ "/diagrams/" ++ did ++ "/delete.json?apiKey=" ++ cc.ApiKey) none none)
      = Reply.response 200 body)
    (hne : filter ≠ "")
    (hint : atoi filter = none)
    (hval : stringMember (decodeData body) filter = some s) :
    (getAction cc http (Context.mk (did :: rest) ids filter)).stdout = [Chunk.line s]
    ∧ (getAction cc http (Context.mk (did :: rest) ids filter)).exit = Exit.success := by
  simp [getAction, Context.First, api_delete, hreply, hne, jsonq_single, hint, hval]

/-- C2, amended, on the filter `ownerName` and a payload whose `ownerName` is Alice. -/
theorem get_filter_top_level_witness :
    fixedServer 200 alicePayload (Request.mk Method.GET
        (demoCreds.ApiEP ++ "/diagrams/" ++ "d1" ++ "/delete.json?apiKey=" ++ demoCreds.ApiKey)
        none none)
      = Reply.response 200 alicePayload
    ∧ "ownerName" ≠ ""
    ∧ atoi "ownerName" = none
    ∧ stringMember (decodeData alicePayload) "ownerName" = some "Alice"
    ∧ (getAction demoCreds (fixedServer 200 alicePayload)
        (Context.mk ("d1" :: []) false "ownerName")).stdout = [Chunk.line "Alice"]
    ∧ (getAction demoCreds (fixedServer 200 alicePayload)
        (Context.mk ("d1" :: []) false "ownerName")).exit = Exit.success :=
  ⟨rfl, by decide, rfl, rfl,
    get_filter_top_level demoCreds (fixedServer 200 alicePayload) "d1" [] false "ownerName"
      alicePayload "Alice" rfl (by decide) rfl rfl⟩

/-- C7, as stated, fails: in the payload the dotted path `owner.name` resolves
to nothing (there is no member `owner`), yet `get d1 --filter owner.name`
prints `Bob`, the string of the top-level member named `owner.name`, and not
the message. -/
theorem get_filter_missing_counterexample :
    specFieldPath (JValue.obj (decodeData dottedKeyPayload)) "owner.name" = none
    ∧ (getAction demoCreds (fixedServer 200 dottedKeyPayload)
        (Context.mk ["d1"] false "owner.name")).stdout = [Chunk.line "Bob"]
    ∧ (getAction demoCreds (fixedServer 200 dottedKeyPayload)
        (Context.mk ["d1"] false "owner.name")).stdout
      ≠ [Chunk.line "No such name owner.name in root payload"] := by
  have h : (getAction demoCreds (fixedServer 200 dottedKeyPayload)
        (Context.mk ["d1"] false "owner.name")).stdout = [Chunk.line "Bob"] := rfl
  refine ⟨rfl, h, ?_⟩
  rw [h]
  intro e
  simp at e

/-- C7, amended: for a response of status 200 and a non-empty filter that, taken
whole as the name of one top-level member, does not resolve to a string in
the decoded payload (no top-level member has that name, or the member holds
no string, or `Atoi` reads the filter as an integer), `get <id> --filter`
prints the one line `No such name <filter> in root payload`, no JSON
document, and returns nil. -/
theorem get_filter_missing (cc : Cacoon) (http : Request → Reply) (did : String)
    (rest : List String) (ids : Bool) (filter body : String)
    (hreply : http (Request.mk Method.GET
        (cc.ApiEP ++ "/diagrams/" ++ did ++ "/delete.json?apiKey=" ++ cc.ApiKey) none none)
      = Reply.response 200 body)
    (hne : filter ≠ "")
    (hmiss : stringMember (decodeData body) filter = none ∨ (atoi filter).isSome = true) :
    (getAction cc http (Context.mk (did :: rest) ids filter)).stdout
      = [Chunk.line ("No such name " ++ filter ++ " in root payload")]
    ∧ (getAction cc http (Context.mk (did :: rest) ids filter)).exit = Exit.success := by
  have hq : JsonQuery.String (decodeData body) [filter] = QResult.error := by
    rw [jsonq_single]
    cases ha : atoi filter with
    | some n => rfl
    | none =>
      cases hmiss with
      | inl h => simp [h]
      | inr h => simp [ha] at h
  simp [getAction, Context.First, api_delete, hreply, hne, hq]

/-- C7, amended, on the filter `no.such.path` and a payload without such a member. -/
theorem get_filter_missing_witness :
    fixedServer 200 alicePayload (Request.mk Method.GET
        (demoCreds.ApiEP ++ "/diagrams/" ++ "d1" ++ "/delete.json?apiKey=" ++ demoCreds.ApiKey)
        none none)
      = Reply.response 200 alicePayload
    ∧ "no.such.path" ≠ ""
    ∧ (stringMember (decodeData alicePayload) "no.such.path" = none
        ∨ (atoi "no.such.path").isSome = true)
    ∧ (getAction demoCreds (fixedServer 200 alicePayload)
        (Context.mk ("d1" :: []) false "no.such.path")).stdout
      = [Chunk.line ("No such name " ++ "no.such.path" ++ " in root payload")]
    ∧ (getAction demoCreds (fixedServer 200 alicePayload)
        (Context.mk ("d1" :: []) false "no.such.path")).exit = Exit.success :=
  ⟨rfl, by decide, Or.inl rfl,
    get_filter_missing demoCreds (fixedServer 200 alicePayload) "d1" [] false "no.such.path"
      alicePayload rfl (by decide) (Or.inl rfl)⟩

/-- C3, as stated, fails: the payload has an `items` member with the records
`a` and `b`, and `list --ids` prints the empty sequence. -/
theorem list_ids_items_counterexample :
    parseDocument itemsPayload
      = some (JValue.obj
          [("items", JValue.arr [JValue.obj [("diagramId", JValue.str "a")],
              JValue.obj [("diagramId", JValue.str "b")]]),
           ("count", JValue.num "2")])
    ∧ (listAction demoCreds (fixedServer 200 itemsPayload) (Context.mk [] true "")).stdout
      = [Chunk.line "[]"]
    ∧ (listAction demoCreds (fixedServer 200 itemsPayload) (Context.mk [] true "")).stdout
      ≠ [Chunk.line (formatStrings ["a", "b"])] := by
  have h : (listAction demoCreds (fixedServer 200 itemsPayload) (Context.mk [] true "")).stdout
      = [Chunk.line "[]"] := rfl
  refine ⟨rfl, h, ?_⟩
  rw [h]
  intro e
  have e2 : "[]" = formatStrings ["a", "b"] := by simpa using e
  exact absurd e2 (by decide)

/-- C3, amended: for a payload that is a JSON object with one member named
`result` (the name matched without regard to case), an array of diagram records
each with one string member `diagramId`, `list --ids` prints, on one line and
as Go formats a `[]string`, exactly the sequence of those identifiers: as many
as there are records, the i-th that of the i-th record. -/
theorem list_ids_result (cc : Cacoon) (http : Request → Reply) (args : List String)
    (filter body : String) (status : Nat) (ms : List (String × JValue))
    (items : List JValue) (ids : List String)
    (hreply : http (Request.mk Method.GET (cc.ApiEP ++ "/diagrams.json?apiKey=" ++ cc.ApiKey)
        none none) = Reply.response status body)
    (hdoc : parseDocument body = some (JValue.obj ms))
    (hres : membersNamed "result" ms = [JValue.arr items])
    (hids : items.map recordId = ids.map some) :
    (listAction cc http (Context.mk args true filter)).stdout
      = [Chunk.line (formatStrings ids)]
    ∧ ids.length = items.length
    ∧ (listAction cc http (Context.mk args true filter)).exit = Exit.success := by
  have hlen : ids.length = items.length := by
    have h := congrArg List.length hids
    simpa using h.symm
  have hd : (sliceElems (unmarshal diagramResp.setField {} body).1.Result).map
      (fun r => r.DiagramID) = ids := by
    simp only [unmarshal, hdoc, decodeStruct]
    rw [decodeMembers_Result, hres]
    simp only [List.foldl_cons, List.foldl_nil]
    obtain ⟨sl, hsl, hel⟩ := storeDiagrams_nil items
    rw [hsl]
    simp only [sliceElems, hel]
    exact decodeElems_ids items ids _ hids
  simp only [listAction, api_list, hreply]
  simp [hd, hlen]

/-- C3, amended, on a payload whose `result` holds the records `a` and `b`. -/
theorem list_ids_result_witness :
    fixedServer 200 resultPayload (Request.mk Method.GET
        (demoCreds.ApiEP ++ "/diagrams.json?apiKey=" ++ demoCreds.ApiKey) none none)
      = Reply.response 200 resultPayload
    ∧ parseDocument resultPayload
      = some (JValue.obj
          [("result", JValue.arr [JValue.obj [("diagramId", JValue.str "a")],
              JValue.obj [("diagramId", JValue.str "b")]]),
           ("count", JValue.num "2")])
    ∧ membersNamed "result"
        [("result", JValue.arr [JValue.obj [("diagramId", JValue.str "a")],
            JValue.obj [("diagramId", JValue.str "b")]]),
         ("count", JValue.num "2")]
      = [JValue.arr [JValue.obj [("diagramId", JValue.str "a")],
          JValue.obj [("diagramId", JValue.str "b")]]]
    ∧ [JValue.obj [("diagramId", JValue.str "a")],
        JValue.obj [("diagramId", JValue.str "b")]].map recordId = ["a", "b"].map some
    ∧ (listAction demoCreds (fixedServer 200 resultPayload) (Context.mk [] true "")).stdout
      = [Chunk.line (formatStrings ["a", "b"])]
    ∧ ["a", "b"].length
      = [JValue.obj [("diagramId", JValue.str "a")],
          JValue.obj [("diagramId", JValue.str "b")]].length
    ∧ (listAction demoCreds (fixedServer 200 resultPayload) (Context.mk [] true "")).exit
      = Exit.success :=
  ⟨rfl, rfl, rfl, rfl,
    list_ids_result demoCreds (fixedServer 200 resultPayload) [] "" resultPayload 200 _ _
      ["a", "b"] rfl rfl rfl rfl⟩

/-- C8: the code at the failing input.  The body `not json` does not decode,
`json.Unmarshal` returns an error, and yet `list` and `get` print the JSON
document of the zero record and return nil: neither ends with exit code 86. -/
theorem decode_failure_not_fatal :
    (unmarshal diagramResp.setField {} "not json").2 = some DecodeError.syntaxError
    ∧ (listAction demoCreds (fixedServer 200 "not json") (Context.mk [] false "")).stdout
      = [Chunk.json (JValue.obj [("Result", JValue.null), ("Count", JValue.num "0")])]
    ∧ (listAction demoCreds (fixedServer 200 "not json") (Context.mk [] false "")).exit
      = Exit.success
    ∧ (listAction demoCreds (fixedServer 200 "not json") (Context.mk [] false "")).exit
      ≠ Exit.exitError 86
    ∧ (unmarshal diagram.setField {} "not json").2 = some DecodeError.syntaxError
    ∧ (getAction demoCreds (fixedServer 200 "not json") (Context.mk ["d1"] false "")).stdout
      = [Chunk.json (diagram.marshal {})]
    ∧ (getAction demoCreds (fixedServer 200 "not json") (Context.mk ["d1"] false "")).exit
      = Exit.success
    ∧ (getAction demoCreds (fixedServer 200 "not json") (Context.mk ["d1"] false "")).exit
      ≠ Exit.exitError 86 := by
  have hl : (listAction demoCreds (fixedServer 200 "not json") (Context.mk [] false "")).exit
      = Exit.success := rfl
  have hg : (getAction demoCreds (fixedServer 200 "not json") (Context.mk ["d1"] false "")).exit
      = Exit.success := rfl
  refine ⟨rfl, rfl, hl, ?_, rfl, rfl, hg, ?_⟩
  · rw [hl]; decide
  · rw [hg]; decide

/-- C9, as stated, fails: for the body `not json`, which is not empty and does
not decode as a JSON object, the payload posted is `null`, not the empty
object. -/
theorem api_bad_body_counterexample :
    "not json" ≠ ""
    ∧ decodesAsObject "not json" = false
    ∧ (demoCreds.api (fixedServer 200 "") "diagrams" "" "not json").1
      = Request.mk Method.POST "https://cacoo.com/api/v1/diagrams.json?apiKey=K"
          (some "application/json") (some JValue.null)
    ∧ (demoCreds.api (fixedServer 200 "") "diagrams" "" "not json").1.body
      ≠ some (JValue.obj []) := by
  have h : (demoCreds.api (fixedServer 200 "") "diagrams" "" "not json").1.body
      = some JValue.null := rfl
  refine ⟨by decide, rfl, rfl, ?_⟩
  rw [h]
  intro e
  cases e

/-- C9, amended: for a non-empty body that does not decode as a JSON object,
`Cacoon.api` issues an HTTP POST with content type `application/json` whose
payload is the JSON value `null`; for every non-empty body the method is POST
and for the empty body it is GET. -/
theorem api_bad_body (cc : Cacoon) (http : Request → Reply) (target action body : String)
    (hne : body ≠ "") (hobj : decodesAsObject body = false) :
    (cc.api http target action body).1
      = Request.mk Method.POST (cc.api http target action body).1.url
          (some "application/json") (some JValue.null)
    ∧ (∀ other : String, other ≠ "" → (cc.api http target action other).1.method = Method.POST)
    ∧ (cc.api http target action "").1.method = Method.GET := by
  have hraw : unmarshalMap body = none := by
    unfold decodesAsObject at hobj
    unfold unmarshalMap
    cases hp : parseDocument body with
    | none => rfl
    | some v =>
      rw [hp] at hobj
      cases v <;> first | rfl | simp at hobj
  refine ⟨?_, ?_, ?_⟩
  · simp [Cacoon.api, hne, hraw, marshalMap]
  · intro other ho
    simp [Cacoon.api, ho]
  · simp [Cacoon.api]

/-- C9, amended, on the body `not json`. -/
theorem api_bad_body_witness :
    "not json" ≠ ""
    ∧ decodesAsObject "not json" = false
    ∧ (demoCreds.api (fixedServer 200 "") "diagrams" "" "not json").1
      = Request.mk Method.POST
          (demoCreds.api (fixedServer 200 "") "diagrams" "" "not json").1.url
          (some "application/json") (some JValue.null)
    ∧ (∀ other : String, other ≠ "" →
        (demoCreds.api (fixedServer 200 "") "diagrams" "" other).1.method = Method.POST)
    ∧ (demoCreds.api (fixedServer 200 "") "diagrams" "" "").1.method = Method.GET :=
  ⟨by decide, rfl,
    api_bad_body demoCreds (fixedServer 200 "") "diagrams" "" "not json" (by decide) rfl⟩

end CacoonCli
